import Mathlib

/-!
# Verification of the distbench `TestSequencer` core

A shallow embedding of `distbench_test_sequencer.cc` (namespace `distbench`):
the node registry (`RegisterNode`), the placement algorithm of `DoRunTest`,
and the fan-out phases (`ConfigureNodes`, `IntroducePeers`, `RunTraffic`),
with theorems checking the natural-language specification against the code.

Conventions of the embedding:
* `std::set<std::string>` is a strictly sorted `List String`
  (`sinsert` mirrors `set::insert`, `List.erase` mirrors `set::erase`,
  the head of the list mirrors `set::begin()`).
* `std::map<std::string, V>` whose iteration order matters is a
  key-sorted association list `List (String × V)`.
* `node_map_` / `node_id_map_` are association lists in insertion order
  (their iteration order never matters for the claims below; `node_map_`
  is only ever iterated to build a sorted snapshot set).
* gRPC / absl statuses are a `Status` record (code plus message).
* Outcomes of asynchronous worker RPCs are inputs to the model: each
  fan-out takes the list of per-RPC completions in completion-queue order.
* Stub construction success (`DistBenchNodeManager::NewStub`) is a
  boolean input of `registerNode`.
-/

namespace Distbench

/-- The gRPC / absl status codes used by the sequencer. -/
inductive StatusCode
  | OK
  | INVALID_ARGUMENT
  | NOT_FOUND
  | ABORTED
  | UNKNOWN
deriving DecidableEq, Repr

/-- A gRPC / absl status: a code plus a human-readable message. -/
structure Status where
  code : StatusCode
  message : String
deriving DecidableEq, Repr

/-- `status.ok()`. -/
def Status.isOk (s : Status) : Bool := s.code = StatusCode.OK

/-- `grpc::Status::OK`. -/
def statusOK : Status := ⟨StatusCode.OK, ""⟩

/-- The fields of a `NodeRegistration` proto consumed by the sequencer:
`hostname` and `control_port`.  The registration payload itself stands in
for its canonical serialization (`DebugString`), which is injective on
these fields. -/
structure NodeRegistration where
  hostname : String
  control_port : Int
deriving DecidableEq, Repr

/-- One registry entry (`struct Node`): the original registration payload
and the idle flag.  The stub is opaque and not represented; `idle` is
`true` when no RunTraffic is outstanding against the node. -/
structure Node where
  registration : NodeRegistration
  idle : Bool
deriving DecidableEq, Repr

/-- The `NodeConfig` response of `RegisterNode`. -/
structure NodeConfig where
  node_id : Nat
  node_alias : String
deriving DecidableEq, Repr

/-- The shared state of the sequencer guarded by `mutex_`:
`node_map_ : alias → Node` and `node_id_map_ : registration → id`,
both as association lists in insertion order. -/
structure SequencerState where
  node_map : List (String × Node)
  node_id_map : List (NodeRegistration × Nat)
deriving DecidableEq, Repr

/-- The initial (empty) registry. -/
def initState : SequencerState := ⟨[], []⟩

/-- Lookup in an association list keyed by decidable equality
(`std::map::find`). -/
def mlookup {κ ν : Type} [DecidableEq κ] (k : κ) : List (κ × ν) → Option ν
  | [] => none
  | (k', v) :: rest => if k = k' then some v else mlookup k rest

/-- `node_map_[alias]` followed by `node.registration = *request;
node.stub = std::move(stub)`: update the entry in place if the alias is
present (its `idle` flag is left untouched), otherwise default-construct
a fresh `Node` (idle defaults to true) and store the registration. -/
def nodeMapSet (k : String) (r : NodeRegistration) :
    List (String × Node) → List (String × Node)
  | [] => [(k, ⟨r, true⟩)]
  | (k', v) :: rest =>
    if k = k' then (k', ⟨r, v.idle⟩) :: rest else (k', v) :: nodeMapSet k r rest

/-- The alias assigned to a node id: `absl::StrCat("node", node_id)`. -/
def aliasOf (i : Nat) : String := "node" ++ toString i

/-- `TestSequencer::RegisterNode`.  `stub_ok` is the outcome of
`DistBenchNodeManager::NewStub` (whether a stub could be constructed).
Returns the state after the call, the status, and the `NodeConfig`
response (populated only on success). -/
def registerNode (s : SequencerState) (req : NodeRegistration)
    (stub_ok : Bool) : SequencerState × Status × Option NodeConfig :=
  if req.hostname = "" ∨ req.control_port ≤ 0 then
    (s, ⟨StatusCode.INVALID_ARGUMENT, "Invalid Registration"⟩, none)
  else
    let fresh_id := s.node_map.length
    let found := mlookup req s.node_id_map
    let node_id := found.getD fresh_id
    let s1 : SequencerState :=
      match found with
      | some _ => s
      | none => { s with node_id_map := s.node_id_map ++ [(req, fresh_id)] }
    if stub_ok then
      ({ s1 with node_map := nodeMapSet (aliasOf node_id) req s1.node_map },
       statusOK, some ⟨node_id, aliasOf node_id⟩)
    else
      (s1, ⟨StatusCode.UNKNOWN, "Could not create node stub."⟩, none)

/-- Registration payloads the validation step accepts: non-empty hostname
and positive control port. -/
def validReg (r : NodeRegistration) : Prop :=
  r.hostname ≠ "" ∧ 0 < r.control_port

/-- Key membership of `node_id_map_` via `mlookup`. -/
theorem mlookup_eq_none {κ ν : Type} [DecidableEq κ] (k : κ) :
    ∀ l : List (κ × ν), mlookup k l = none ↔ k ∉ l.map Prod.fst := by
  intro l
  induction l with
  | nil => simp [mlookup]
  | cons p rest ih =>
    obtain ⟨k', v⟩ := p
    by_cases h : k = k'
    · subst h; simp [mlookup]
    · simpa [mlookup, h] using ih

theorem mlookup_append_self {κ ν : Type} [DecidableEq κ] (k : κ) (v : ν)
    (l : List (κ × ν)) (h : mlookup k l = none) :
    mlookup k (l ++ [(k, v)]) = some v := by
  induction l with
  | nil => simp [mlookup]
  | cons p rest ih =>
    obtain ⟨k', w⟩ := p
    by_cases hk : k = k'
    · subst hk; simp [mlookup] at h
    · simp only [mlookup, hk, if_false] at h
      simp only [List.cons_append, mlookup, hk, if_false]
      exact ih h

theorem mlookup_append_of_ne {κ ν : Type} [DecidableEq κ] (k k' : κ)
    (v : ν) (l : List (κ × ν)) (h : k ≠ k') :
    mlookup k (l ++ [(k', v)]) = mlookup k l := by
  induction l with
  | nil => simp [mlookup, h]
  | cons p rest ih =>
    obtain ⟨k0, w⟩ := p
    by_cases hk : k = k0
    · subst hk; simp [mlookup]
    · simp only [List.cons_append, mlookup, hk, if_false]
      exact ih

/-- `nodeMapSet` on a present key does not change the key list. -/
theorem nodeMapSet_keys_of_mem (k : String) (r : NodeRegistration)
    (m : List (String × Node)) (h : k ∈ m.map Prod.fst) :
    (nodeMapSet k r m).map Prod.fst = m.map Prod.fst := by
  induction m with
  | nil => simp at h
  | cons p rest ih =>
    obtain ⟨k', v⟩ := p
    by_cases hk : k = k'
    · subst hk; simp [nodeMapSet]
    · simp only [List.map_cons, List.mem_cons] at h
      rcases h with h | h
      · exact absurd h hk
      · simp [nodeMapSet, hk, ih h]

/-- `nodeMapSet` on an absent key appends the key. -/
theorem nodeMapSet_of_not_mem (k : String) (r : NodeRegistration)
    (m : List (String × Node)) (h : k ∉ m.map Prod.fst) :
    nodeMapSet k r m = m ++ [(k, ⟨r, true⟩)] := by
  induction m with
  | nil => simp [nodeMapSet]
  | cons p rest ih =>
    obtain ⟨k', v⟩ := p
    simp only [List.map_cons, List.mem_cons, not_or] at h
    simp [nodeMapSet, h.1, ih h.2]

/-- `nodeMapSet` never changes the length when the key is present. -/
theorem nodeMapSet_length_of_mem (k : String) (r : NodeRegistration)
    (m : List (String × Node)) (h : k ∈ m.map Prod.fst) :
    (nodeMapSet k r m).length = m.length := by
  induction m with
  | nil => simp at h
  | cons p rest ih =>
    obtain ⟨k', v⟩ := p
    by_cases hk : k = k'
    · subst hk; simp [nodeMapSet]
    · simp only [List.map_cons, List.mem_cons] at h
      rcases h with h | h
      · exact absurd h hk
      · simp [nodeMapSet, hk, ih h]

theorem nodeMapSet_mem_keys (k : String) (r : NodeRegistration)
    (m : List (String × Node)) :
    k ∈ (nodeMapSet k r m).map Prod.fst := by
  induction m with
  | nil => simp [nodeMapSet]
  | cons p rest ih =>
    obtain ⟨k', v⟩ := p
    by_cases hk : k = k'
    · subst hk; simp [nodeMapSet]
    · simp only [nodeMapSet, hk, if_false, List.map_cons, List.mem_cons]
      exact Or.inr ih

/-- `mlookup` after `nodeMapSet` at the written key. -/
theorem mlookup_nodeMapSet_self (k : String) (r : NodeRegistration)
    (m : List (String × Node)) :
    mlookup k (nodeMapSet k r m) =
      some ⟨r, ((mlookup k m).map Node.idle).getD true⟩ := by
  induction m with
  | nil => simp [nodeMapSet, mlookup]
  | cons p rest ih =>
    obtain ⟨k', v⟩ := p
    by_cases hk : k = k'
    · subst hk; simp [nodeMapSet, mlookup]
    · simp [nodeMapSet, mlookup, hk, ih]

/-- `mlookup` after `nodeMapSet` at another key. -/
theorem mlookup_nodeMapSet_other (k k' : String) (r : NodeRegistration)
    (m : List (String × Node)) (h : k ≠ k') :
    mlookup k (nodeMapSet k' r m) = mlookup k m := by
  induction m with
  | nil => simp [nodeMapSet, mlookup, h]
  | cons p rest ih =>
    obtain ⟨k0, v⟩ := p
    by_cases hk : k' = k0
    · subst hk; simp [nodeMapSet, mlookup, h]
    · by_cases hk2 : k = k0
      · subst hk2; simp [nodeMapSet, mlookup, hk, Ne.symm hk]
      · simp [nodeMapSet, mlookup, hk, hk2, ih]

/-- Updating a node entry with exactly the value it already holds is the
identity. -/
theorem nodeMapSet_eq_self (k : String) (r : NodeRegistration)
    (m : List (String × Node)) (b : Bool)
    (h : mlookup k m = some ⟨r, b⟩) :
    nodeMapSet k r m = m := by
  induction m with
  | nil => simp [mlookup] at h
  | cons p rest ih =>
    obtain ⟨k', v⟩ := p
    by_cases hk : k = k'
    · subst hk
      simp [mlookup] at h
      subst h
      simp [nodeMapSet]
    · simp only [mlookup, hk, if_false] at h
      simp [nodeMapSet, hk, ih h]

/-- Unfolding of `registerNode` when the payload was seen before and the
stub is constructed. -/
theorem registerNode_found_ok (s : SequencerState) (r : NodeRegistration)
    (i : Nat) (hv : ¬(r.hostname = "" ∨ r.control_port ≤ 0))
    (hf : mlookup r s.node_id_map = some i) :
    registerNode s r true =
      ({ s with node_map := nodeMapSet (aliasOf i) r s.node_map },
       statusOK, some ⟨i, aliasOf i⟩) := by
  simp [registerNode, hv, hf]

/-- Unfolding of `registerNode` when the payload was seen before and the
stub construction fails: the state is untouched. -/
theorem registerNode_found_fail (s : SequencerState) (r : NodeRegistration)
    (i : Nat) (hv : ¬(r.hostname = "" ∨ r.control_port ≤ 0))
    (hf : mlookup r s.node_id_map = some i) :
    registerNode s r false =
      (s, ⟨StatusCode.UNKNOWN, "Could not create node stub."⟩, none) := by
  simp [registerNode, hv, hf]

/-- Unfolding of `registerNode` on a first-time payload with a working
stub. -/
theorem registerNode_fresh_ok (s : SequencerState) (r : NodeRegistration)
    (hv : ¬(r.hostname = "" ∨ r.control_port ≤ 0))
    (hf : mlookup r s.node_id_map = none) :
    registerNode s r true =
      (⟨nodeMapSet (aliasOf s.node_map.length) r s.node_map,
        s.node_id_map ++ [(r, s.node_map.length)]⟩,
       statusOK, some ⟨s.node_map.length, aliasOf s.node_map.length⟩) := by
  simp [registerNode, hv, hf]

/-- Unfolding of `registerNode` on a first-time payload whose stub
construction fails: the dedup map has already gained the new entry. -/
theorem registerNode_fresh_fail (s : SequencerState) (r : NodeRegistration)
    (hv : ¬(r.hostname = "" ∨ r.control_port ≤ 0))
    (hf : mlookup r s.node_id_map = none) :
    registerNode s r false =
      (⟨s.node_map, s.node_id_map ++ [(r, s.node_map.length)]⟩,
       ⟨StatusCode.UNKNOWN, "Could not create node stub."⟩, none) := by
  simp [registerNode, hv, hf]

/-- C5: registering a payload and then registering the identical payload
again returns the same status and the same `NodeConfig` (node id and
alias) both times, and neither the registry size nor the dedup map
changes at the second call; from the empty registry with payload
`{hostname:"h1", control_port:7}` both calls return
`node_id = 0, node_alias = "node0"` and the registry size is 1. -/
theorem registerNode_repeat_idempotent (s : SequencerState)
    (r : NodeRegistration) (hh : r.hostname ≠ "") (hp : 0 < r.control_port) :
    ((registerNode (registerNode s r true).1 r true).2.2
        = (registerNode s r true).2.2
      ∧ (registerNode (registerNode s r true).1 r true).2.1
        = (registerNode s r true).2.1
      ∧ (registerNode (registerNode s r true).1 r true).1.node_map.length
        = (registerNode s r true).1.node_map.length
      ∧ (registerNode (registerNode s r true).1 r true).1.node_id_map
        = (registerNode s r true).1.node_id_map)
    ∧ ((registerNode initState ⟨"h1", 7⟩ true).2.2 = some ⟨0, "node0"⟩
      ∧ (registerNode (registerNode initState ⟨"h1", 7⟩ true).1
            ⟨"h1", 7⟩ true).2.2 = some ⟨0, "node0"⟩
      ∧ (registerNode (registerNode initState ⟨"h1", 7⟩ true).1
            ⟨"h1", 7⟩ true).1.node_map.length = 1) := by
  have hv : ¬(r.hostname = "" ∨ r.control_port ≤ 0) := by
    push_neg
    exact ⟨hh, by omega⟩
  refine ⟨?_, by decide⟩
  cases hfound : mlookup r s.node_id_map with
  | some i =>
    have e1 := registerNode_found_ok s r i hv hfound
    have hf2 : mlookup r (registerNode s r true).1.node_id_map = some i := by
      rw [e1]
      exact hfound
    have e2 := registerNode_found_ok (registerNode s r true).1 r i hv hf2
    rw [e2, e1]
    refine ⟨rfl, rfl, ?_, rfl⟩
    exact nodeMapSet_length_of_mem _ _ _ (nodeMapSet_mem_keys _ _ _)
  | none =>
    have e1 := registerNode_fresh_ok s r hv hfound
    have hf2 : mlookup r (registerNode s r true).1.node_id_map
        = some s.node_map.length := by
      rw [e1]
      exact mlookup_append_self r s.node_map.length s.node_id_map hfound
    have e2 := registerNode_found_ok (registerNode s r true).1 r
      s.node_map.length hv hf2
    rw [e2, e1]
    refine ⟨rfl, rfl, ?_, rfl⟩
    exact nodeMapSet_length_of_mem _ _ _ (nodeMapSet_mem_keys _ _ _)

/-- Witness for C5 at the concrete payload `{hostname:"h1", control_port:7}`. -/
theorem registerNode_repeat_idempotent_witness :
    ((registerNode (registerNode initState ⟨"h1", 7⟩ true).1
          ⟨"h1", 7⟩ true).2.2
        = (registerNode initState ⟨"h1", 7⟩ true).2.2
      ∧ (registerNode (registerNode initState ⟨"h1", 7⟩ true).1
          ⟨"h1", 7⟩ true).2.1
        = (registerNode initState ⟨"h1", 7⟩ true).2.1
      ∧ (registerNode (registerNode initState ⟨"h1", 7⟩ true).1
          ⟨"h1", 7⟩ true).1.node_map.length
        = (registerNode initState ⟨"h1", 7⟩ true).1.node_map.length
      ∧ (registerNode (registerNode initState ⟨"h1", 7⟩ true).1
          ⟨"h1", 7⟩ true).1.node_id_map
        = (registerNode initState ⟨"h1", 7⟩ true).1.node_id_map)
    ∧ ((registerNode initState ⟨"h1", 7⟩ true).2.2 = some ⟨0, "node0"⟩
      ∧ (registerNode (registerNode initState ⟨"h1", 7⟩ true).1
            ⟨"h1", 7⟩ true).2.2 = some ⟨0, "node0"⟩
      ∧ (registerNode (registerNode initState ⟨"h1", 7⟩ true).1
            ⟨"h1", 7⟩ true).1.node_map.length = 1) :=
  registerNode_repeat_idempotent initState ⟨"h1", 7⟩ (by decide) (by decide)

/-- C3 (amended): on a valid request whose stub construction fails,
`RegisterNode` returns UNKNOWN and leaves the alias-to-Node map
unchanged; the registration-to-id dedup map is unchanged when the
payload was seen before, but a first-time payload's dedup entry has
already been recorded and persists. -/
theorem registerNode_stub_failure (s : SequencerState)
    (r : NodeRegistration) (hh : r.hostname ≠ "") (hp : 0 < r.control_port) :
    (registerNode s r false).2.1
      = ⟨StatusCode.UNKNOWN, "Could not create node stub."⟩
    ∧ (registerNode s r false).2.2 = none
    ∧ (registerNode s r false).1.node_map = s.node_map
    ∧ (∀ i, mlookup r s.node_id_map = some i →
        (registerNode s r false).1 = s)
    ∧ (mlookup r s.node_id_map = none →
        (registerNode s r false).1.node_id_map
          = s.node_id_map ++ [(r, s.node_map.length)]) := by
  have hv : ¬(r.hostname = "" ∨ r.control_port ≤ 0) := by
    push_neg
    exact ⟨hh, by omega⟩
  cases hfound : mlookup r s.node_id_map with
  | some i =>
    rw [registerNode_found_fail s r i hv hfound]
    exact ⟨rfl, rfl, rfl, fun _ _ => rfl, by simp [hfound]⟩
  | none =>
    rw [registerNode_fresh_fail s r hv hfound]
    exact ⟨rfl, rfl, rfl, fun i h => by simp [hfound] at h, fun _ => rfl⟩

/-- Witness for C3's amended theorem at a concrete fresh payload. -/
theorem registerNode_stub_failure_witness :
    (registerNode initState ⟨"h1", 7⟩ false).2.1
      = ⟨StatusCode.UNKNOWN, "Could not create node stub."⟩
    ∧ (registerNode initState ⟨"h1", 7⟩ false).2.2 = none
    ∧ (registerNode initState ⟨"h1", 7⟩ false).1.node_map
      = initState.node_map
    ∧ (∀ i, mlookup ⟨"h1", 7⟩ initState.node_id_map = some i →
        (registerNode initState ⟨"h1", 7⟩ false).1 = initState)
    ∧ (mlookup ⟨"h1", 7⟩ initState.node_id_map = none →
        (registerNode initState ⟨"h1", 7⟩ false).1.node_id_map
          = initState.node_id_map
              ++ [(⟨"h1", 7⟩, initState.node_map.length)]) :=
  registerNode_stub_failure initState ⟨"h1", 7⟩ (by decide) (by decide)

/-- C3 counterexample: a first-time registration whose stub construction
fails returns UNKNOWN but does NOT leave the registry state exactly as it
was: the registration-to-id dedup map has gained the payload's entry. -/
theorem registerNode_stub_failure_mutates_state :
    (registerNode initState ⟨"h1", 7⟩ false).2.1
      = ⟨StatusCode.UNKNOWN, "Could not create node stub."⟩
    ∧ (registerNode initState ⟨"h1", 7⟩ false).1 ≠ initState
    ∧ (registerNode initState ⟨"h1", 7⟩ false).1.node_id_map
      = [(⟨"h1", 7⟩, 0)] := by
  refine ⟨rfl, ?_, rfl⟩
  decide

/-! Injectivity of the decimal rendering used by `absl::StrCat("node", id)`:
needed to show that distinct node ids yield distinct aliases. -/

/-- Numeric value of a decimal digit character. -/
def digitVal (c : Char) : Nat := c.toNat - '0'.toNat

/-- Value of a big-endian decimal digit string. -/
def digitsVal (l : List Char) : Nat :=
  l.foldl (fun a c => a * 10 + digitVal c) 0

theorem digitVal_digitChar (d : Nat) (h : d < 10) :
    digitVal (Nat.digitChar d) = d := by
  interval_cases d <;> decide

theorem digitsVal_append_singleton (l : List Char) (c : Char) :
    digitsVal (l ++ [c]) = digitsVal l * 10 + digitVal c := by
  simp [digitsVal, List.foldl_append]

theorem toDigitsCore_append (b fuel n : Nat) (ds : List Char) :
    Nat.toDigitsCore b fuel n ds = Nat.toDigitsCore b fuel n [] ++ ds := by
  induction fuel generalizing n ds with
  | zero => simp [Nat.toDigitsCore]
  | succ fuel ih =>
    simp only [Nat.toDigitsCore]
    by_cases h : n / b = 0
    · simp [h]
    · rw [if_neg h, if_neg h, ih (n / b) [Nat.digitChar (n % b)],
        ih (n / b) (Nat.digitChar (n % b) :: ds)]
      simp

theorem digitsVal_toDigitsCore (fuel n : Nat) (h : n < fuel) :
    digitsVal (Nat.toDigitsCore 10 fuel n []) = n := by
  induction fuel generalizing n with
  | zero => omega
  | succ fuel ih =>
    simp only [Nat.toDigitsCore]
    by_cases h0 : n / 10 = 0
    · rw [if_pos h0]
      have hn10 : n < 10 := by omega
      have := digitVal_digitChar (n % 10) (Nat.mod_lt n (by norm_num))
      simp [digitsVal, this]
      omega
    · rw [if_neg h0, toDigitsCore_append, digitsVal_append_singleton]
      have h1 : n / 10 < fuel := by
        have h2 : 0 < n := by
          by_contra hcon
          have : n = 0 := by omega
          subst this
          simp at h0
        have := Nat.div_lt_self h2 (by norm_num : 1 < 10)
        omega
      rw [ih (n / 10) h1, digitVal_digitChar (n % 10) (Nat.mod_lt n (by omega))]
      omega

theorem natRepr_injective : Function.Injective Nat.repr := by
  intro m n h
  have hdata : Nat.toDigits 10 m = Nat.toDigits 10 n := by
    have hd := congrArg String.data h
    simpa [Nat.repr, List.asString] using hd
  have hm := digitsVal_toDigitsCore (m + 1) m (Nat.lt_succ_self m)
  have hn := digitsVal_toDigitsCore (n + 1) n (Nat.lt_succ_self n)
  rw [show Nat.toDigitsCore 10 (m + 1) m [] = Nat.toDigits 10 m from rfl]
    at hm
  rw [show Nat.toDigitsCore 10 (n + 1) n [] = Nat.toDigits 10 n from rfl]
    at hn
  rw [← hm, ← hn, hdata]

/-- Distinct node ids receive distinct aliases. -/
theorem aliasOf_injective : Function.Injective aliasOf := by
  intro i j h
  have hd := congrArg String.data h
  simp only [aliasOf, String.data_append] at hd
  have : (toString i).data = (toString j).data :=
    List.append_cancel_left hd
  exact natRepr_injective (String.ext this)

/-- `mlookup` success yields list membership. -/
theorem mlookup_mem {κ ν : Type} [DecidableEq κ] (k : κ) (v : ν) :
    ∀ l : List (κ × ν), mlookup k l = some v → (k, v) ∈ l := by
  intro l
  induction l with
  | nil => simp [mlookup]
  | cons p rest ih =>
    obtain ⟨k', w⟩ := p
    by_cases hk : k = k'
    · subst hk
      intro h
      simp [mlookup] at h
      subst h
      exact List.mem_cons_self _ _
    · simp only [mlookup, hk, if_false, List.mem_cons]
      exact fun h => Or.inr (ih h)

/-- Key membership yields `mlookup` success. -/
theorem mlookup_isSome {κ ν : Type} [DecidableEq κ] (k : κ)
    (l : List (κ × ν)) (h : k ∈ l.map Prod.fst) :
    ∃ v, mlookup k l = some v := by
  cases hm : mlookup k l with
  | none => exact absurd h ((mlookup_eq_none k l).mp hm)
  | some v => exact ⟨v, rfl⟩

/-- Fold a list of registration payloads through `registerNode` (each
with a working stub), starting from an arbitrary registry state. -/
def regFold (s : SequencerState) (l : List NodeRegistration) :
    SequencerState :=
  l.foldl (fun st r => (registerNode st r true).1) s

/-- A sequence of successful `RegisterNode` calls starting from the empty
registry. -/
def runRegs (l : List NodeRegistration) : SequencerState :=
  regFold initState l

/-- The registry invariant maintained by successful registrations:
aliases in `node_map_` are exactly `node0 … node(n-1)`; ids in
`node_id_map_` are assigned in order `0, 1, …`; payloads are
deduplicated; and id `i` points back at the node registered under
`node<i>`. -/
structure RegInv (s : SequencerState) : Prop where
  keys_eq : s.node_map.map Prod.fst
    = (List.range s.node_map.length).map aliasOf
  len_eq : s.node_id_map.length = s.node_map.length
  ids_eq : s.node_id_map.map Prod.snd = List.range s.node_id_map.length
  payloads_nodup : (s.node_id_map.map Prod.fst).Nodup
  coherent : ∀ p i, (p, i) ∈ s.node_id_map →
    mlookup (aliasOf i) s.node_map = some ⟨p, true⟩

theorem regInv_init : RegInv initState := by
  constructor <;> simp [initState]

/-- In an invariant state the next fresh alias is not yet taken. -/
theorem fresh_alias_not_mem (s : SequencerState) (h : RegInv s) :
    aliasOf s.node_map.length ∉ s.node_map.map Prod.fst := by
  rw [h.keys_eq]
  intro hmem
  obtain ⟨i, hi, hali⟩ := List.mem_map.mp hmem
  have := aliasOf_injective hali
  subst this
  exact absurd (List.mem_range.mp hi) (lt_irrefl _)

/-- A repeated successful registration of an already-known payload leaves
the registry state literally unchanged. -/
theorem registerNode_known_id (s : SequencerState) (r : NodeRegistration)
    (i : Nat) (h : RegInv s)
    (hv : ¬(r.hostname = "" ∨ r.control_port ≤ 0))
    (hf : mlookup r s.node_id_map = some i) :
    (registerNode s r true).1 = s := by
  rw [registerNode_found_ok s r i hv hf]
  have hco := h.coherent r i (mlookup_mem r i _ hf)
  have heq := nodeMapSet_eq_self (aliasOf i) r s.node_map true hco
  show { s with node_map := nodeMapSet (aliasOf i) r s.node_map } = s
  rw [heq]

/-- The invariant is preserved when a brand-new payload is registered:
the explicit successor state. -/
theorem regInv_fresh (s : SequencerState) (r : NodeRegistration)
    (h : RegInv s) (hrnotmem : r ∉ s.node_id_map.map Prod.fst) :
    RegInv ⟨nodeMapSet (aliasOf s.node_map.length) r s.node_map,
      s.node_id_map ++ [(r, s.node_map.length)]⟩ := by
  have hnotmem := fresh_alias_not_mem s h
  have hset := nodeMapSet_of_not_mem (aliasOf s.node_map.length) r
    s.node_map hnotmem
  have hlen : (nodeMapSet (aliasOf s.node_map.length) r s.node_map).length
      = s.node_map.length + 1 := by
    rw [hset]
    simp
  constructor
  case keys_eq =>
    show (nodeMapSet (aliasOf s.node_map.length) r s.node_map).map Prod.fst
      = (List.range
          (nodeMapSet (aliasOf s.node_map.length) r s.node_map).length).map
        aliasOf
    rw [hlen, hset, List.map_append, h.keys_eq, List.range_succ,
      List.map_append]
    simp
  case len_eq =>
    show (s.node_id_map ++ [(r, s.node_map.length)]).length
      = (nodeMapSet (aliasOf s.node_map.length) r s.node_map).length
    rw [hlen]
    simp [h.len_eq]
  case ids_eq =>
    show (s.node_id_map ++ [(r, s.node_map.length)]).map Prod.snd
      = List.range (s.node_id_map ++ [(r, s.node_map.length)]).length
    have hl : (s.node_id_map ++ [(r, s.node_map.length)]).length
        = s.node_id_map.length + 1 := by
      simp
    rw [hl, List.range_succ, List.map_append, h.ids_eq]
    simp [h.len_eq]
  case payloads_nodup =>
    show ((s.node_id_map ++ [(r, s.node_map.length)]).map Prod.fst).Nodup
    rw [List.map_append]
    simp only [List.map_cons, List.map_nil]
    rw [List.nodup_append]
    refine ⟨h.payloads_nodup, List.nodup_singleton r, ?_⟩
    intro a ha hb
    simp only [List.mem_singleton] at hb
    subst hb
    exact hrnotmem ha
  case coherent =>
    intro p i hmem
    show mlookup (aliasOf i)
      (nodeMapSet (aliasOf s.node_map.length) r s.node_map)
        = some ⟨p, true⟩
    rw [hset]
    rcases List.mem_append.mp hmem with hold | hnew
    · have hi : i < s.node_map.length := by
        have h1 : i ∈ s.node_id_map.map Prod.snd :=
          List.mem_map.mpr ⟨(p, i), hold, rfl⟩
        rw [h.ids_eq] at h1
        have h2 := List.mem_range.mp h1
        have h3 := h.len_eq
        omega
      have hne : aliasOf i ≠ aliasOf s.node_map.length :=
        aliasOf_injective.ne (by omega)
      rw [mlookup_append_of_ne _ _ _ _ hne]
      exact h.coherent p i hold
    · simp only [List.mem_singleton, Prod.mk.injEq] at hnew
      obtain ⟨rfl, rfl⟩ := hnew
      exact mlookup_append_self _ _ _
        ((mlookup_eq_none _ _).mpr hnotmem)

/-- One successful registration preserves the registry invariant. -/
theorem regInv_step (s : SequencerState) (r : NodeRegistration)
    (h : RegInv s) (hh : r.hostname ≠ "") (hp : 0 < r.control_port) :
    RegInv (registerNode s r true).1 := by
  have hv : ¬(r.hostname = "" ∨ r.control_port ≤ 0) := by
    push_neg
    exact ⟨hh, by omega⟩
  cases hfound : mlookup r s.node_id_map with
  | some i => rw [registerNode_known_id s r i h hv hfound]; exact h
  | none =>
    rw [registerNode_fresh_ok s r hv hfound]
    exact regInv_fresh s r h ((mlookup_eq_none r s.node_id_map).mp hfound)

/-- The invariant holds after any sequence of valid successful
registrations. -/
theorem regInv_regFold (l : List NodeRegistration) :
    ∀ s : SequencerState, RegInv s → (∀ r ∈ l, validReg r) →
      RegInv (regFold s l) := by
  induction l with
  | nil => intro s h _; exact h
  | cons r rest ih =>
    intro s h hv
    have hr := hv r (List.mem_cons_self _ _)
    exact ih _ (regInv_step s r h hr.1 hr.2)
      (fun r' hr' => hv r' (List.mem_cons_of_mem _ hr'))

/-- Registration only ever appends to the payload-dedup map. -/
theorem payloads_mono (s : SequencerState) (r : NodeRegistration)
    (b : Bool) (p : NodeRegistration)
    (h : p ∈ s.node_id_map.map Prod.fst) :
    p ∈ (registerNode s r b).1.node_id_map.map Prod.fst := by
  by_cases hv : r.hostname = "" ∨ r.control_port ≤ 0
  · have e : registerNode s r b
        = (s, ⟨StatusCode.INVALID_ARGUMENT, "Invalid Registration"⟩, none) := by
      simp [registerNode, hv]
    rw [e]
    exact h
  · cases hfound : mlookup r s.node_id_map with
    | some i =>
      cases b with
      | true => rw [registerNode_found_ok s r i hv hfound]; exact h
      | false => rw [registerNode_found_fail s r i hv hfound]; exact h
    | none =>
      cases b with
      | true =>
        rw [registerNode_fresh_ok s r hv hfound]
        show p ∈ (s.node_id_map ++ [(r, s.node_map.length)]).map Prod.fst
        rw [List.map_append]
        exact List.mem_append_left _ h
      | false =>
        rw [registerNode_fresh_fail s r hv hfound]
        show p ∈ (s.node_id_map ++ [(r, s.node_map.length)]).map Prod.fst
        rw [List.map_append]
        exact List.mem_append_left _ h

/-- A valid successful registration records its payload. -/
theorem payload_recorded (s : SequencerState) (r : NodeRegistration)
    (hv : ¬(r.hostname = "" ∨ r.control_port ≤ 0)) :
    r ∈ (registerNode s r true).1.node_id_map.map Prod.fst := by
  cases hfound : mlookup r s.node_id_map with
  | some i =>
    rw [registerNode_found_ok s r i hv hfound]
    show r ∈ s.node_id_map.map Prod.fst
    exact List.mem_map.mpr ⟨(r, i), mlookup_mem r i _ hfound, rfl⟩
  | none =>
    rw [registerNode_fresh_ok s r hv hfound]
    show r ∈ (s.node_id_map ++ [(r, s.node_map.length)]).map Prod.fst
    simp

theorem regFold_cons (s : SequencerState) (r : NodeRegistration)
    (l : List NodeRegistration) :
    regFold s (r :: l) = regFold (registerNode s r true).1 l := rfl

theorem payloads_mono_regFold (l : List NodeRegistration)
    (s : SequencerState) (p : NodeRegistration)
    (h : p ∈ s.node_id_map.map Prod.fst) :
    p ∈ (regFold s l).node_id_map.map Prod.fst := by
  induction l generalizing s with
  | nil => exact h
  | cons r rest ih => exact ih _ (payloads_mono s r true p h)

/-- Every payload in a run of valid successful registrations ends up in
the dedup map. -/
theorem payload_mem_runRegs (l : List NodeRegistration)
    (hv : ∀ r ∈ l, validReg r) (r : NodeRegistration) (hr : r ∈ l) :
    r ∈ (runRegs l).node_id_map.map Prod.fst := by
  rw [runRegs]
  generalize initState = s
  induction l generalizing s with
  | nil => simp at hr
  | cons r0 rest ih =>
    rw [regFold_cons]
    rcases List.mem_cons.mp hr with rfl | hr'
    · have hval := hv r (List.mem_cons_self _ _)
      have hv' : ¬(r.hostname = "" ∨ r.control_port ≤ 0) := by
        push_neg
        exact ⟨hval.1, hval.2⟩
      exact payloads_mono_regFold rest _ r (payload_recorded s r hv')
    · exact ih (fun x hx => hv x (List.mem_cons_of_mem _ hx)) hr' _

/-- C4: across any sequence of successful `RegisterNode` calls, two calls
carrying distinct registration payloads are never assigned the same id or
the same alias; the aliases in the registry are unique; and a repeated
registration never leaks a new id (it leaves the registry state
unchanged). -/
theorem registry_unique_ids_and_aliases (l : List NodeRegistration)
    (hv : ∀ r ∈ l, validReg r) :
    (∀ p i q j, (p, i) ∈ (runRegs l).node_id_map →
        (q, j) ∈ (runRegs l).node_id_map → p ≠ q →
        i ≠ j ∧ aliasOf i ≠ aliasOf j)
    ∧ ((runRegs l).node_map.map Prod.fst).Nodup
    ∧ (∀ r ∈ l, runRegs (l ++ [r]) = runRegs l) := by
  have hinv : RegInv (runRegs l) := regInv_regFold l initState regInv_init hv
  refine ⟨?_, ?_, ?_⟩
  · intro p i q j hp hq hpq
    have hnodup : ((runRegs l).node_id_map.map Prod.snd).Nodup := by
      rw [hinv.ids_eq]
      exact List.nodup_range _
    have hinj := List.inj_on_of_nodup_map hnodup
    have hne : i ≠ j := by
      intro hij
      subst hij
      exact hpq (congrArg Prod.fst (hinj hp hq rfl))
    exact ⟨hne, aliasOf_injective.ne hne⟩
  · rw [hinv.keys_eq]
    exact List.Nodup.map aliasOf_injective (List.nodup_range _)
  · intro r hr
    have hval := hv r hr
    have hv' : ¬(r.hostname = "" ∨ r.control_port ≤ 0) := by
      push_neg
      exact ⟨hval.1, hval.2⟩
    have hmem := payload_mem_runRegs l hv r hr
    obtain ⟨i, hi⟩ := mlookup_isSome r _ hmem
    have hsplit : runRegs (l ++ [r]) = (registerNode (runRegs l) r true).1 := by
      simp [runRegs, regFold, List.foldl_append]
    rw [hsplit, registerNode_known_id (runRegs l) r i hinv hv' hi]

/-- Witness for C4 on a concrete run with a repeated payload. -/
theorem registry_unique_ids_and_aliases_witness :
    (∀ p i q j,
        (p, i) ∈ (runRegs [⟨"h1", 7⟩, ⟨"h2", 8⟩, ⟨"h1", 7⟩]).node_id_map →
        (q, j) ∈ (runRegs [⟨"h1", 7⟩, ⟨"h2", 8⟩, ⟨"h1", 7⟩]).node_id_map →
        p ≠ q → i ≠ j ∧ aliasOf i ≠ aliasOf j)
    ∧ ((runRegs [⟨"h1", 7⟩, ⟨"h2", 8⟩, ⟨"h1", 7⟩]).node_map.map
        Prod.fst).Nodup
    ∧ (∀ r ∈ ([⟨"h1", 7⟩, ⟨"h2", 8⟩, ⟨"h1", 7⟩] : List NodeRegistration),
        runRegs ([⟨"h1", 7⟩, ⟨"h2", 8⟩, ⟨"h1", 7⟩] ++ [r])
          = runRegs [⟨"h1", 7⟩, ⟨"h2", 8⟩, ⟨"h1", 7⟩]) :=
  registry_unique_ids_and_aliases [⟨"h1", 7⟩, ⟨"h2", 8⟩, ⟨"h1", 7⟩]
    (by
      intro r hr
      fin_cases hr <;> exact ⟨by decide, by decide⟩)

/-! ## Placement (`TestSequencer::DoRunTest`, lines 160–241)

`std::set<std::string>` is modelled as a strictly sorted `List String`;
`std::map<std::string, std::set<std::string>>` (the
`node_service_map`) as a key-sorted association list with sorted value
lists. -/

/-- Byte-lexicographic comparison of code-point lists: the order of
`std::string::operator<` (UTF-8 byte order coincides with code-point
order). -/
def charListLt : List Char → List Char → Bool
  | [], [] => false
  | [], _ :: _ => true
  | _ :: _, [] => false
  | c :: cs, d :: ds =>
    if c.toNat < d.toNat then true
    else if d.toNat < c.toNat then false
    else charListLt cs ds

/-- `std::string::operator<`. -/
def strLt (a b : String) : Bool := charListLt a.data b.data

/-- The strict order used for every `std::set<std::string>` and
`std::map<std::string, ...>` in the sequencer. -/
def sLtR (a b : String) : Prop := strLt a b = true

/-- `std::set<std::string>::insert`: ordered insertion, no duplicates. -/
def sinsert (x : String) : List String → List String
  | [] => [x]
  | y :: ys =>
    if strLt x y then x :: y :: ys
    else if x = y then y :: ys
    else y :: sinsert x ys

/-- `node_service_map[alias].insert(service)`: `std::map::operator[]`
(default-constructing an empty set at a fresh key, kept in key order)
followed by `std::set::insert` on the value. -/
def nsmAdd (al service : String) :
    List (String × List String) → List (String × List String)
  | [] => [(al, [service])]
  | (k, v) :: rest =>
    if strLt al k then (al, [service]) :: (k, v) :: rest
    else if al = k then (k, sinsert service v) :: rest
    else (k, v) :: nsmAdd al service rest

/-- `node_service_map[idle_node];`: `std::map::operator[]` alone, which
creates an empty entry at a fresh key and leaves a present key alone. -/
def nsmTouch (al : String) :
    List (String × List String) → List (String × List String)
  | [] => [(al, [])]
  | (k, v) :: rest =>
    if strLt al k then (al, []) :: (k, v) :: rest
    else if al = k then (k, v) :: rest
    else (k, v) :: nsmTouch al rest

/-- One `service` entry of a `DistributedSystemDescription`:
`(server_type, count)`. -/
structure ServiceSpec where
  server_type : String
  count : Nat
deriving DecidableEq, Repr

/-- The fields of a `DistributedSystemDescription` consumed by the
placement algorithm: the `services` list and the `node_service_bundles`
map (`alias → list of service-instance names`; proto-map keys are
unique, values are repeated fields in input order). -/
structure Description where
  services : List ServiceSpec
  node_service_bundles : List (String × List String)
deriving DecidableEq, Repr

/-- Lines 175–181: expand the requested services into the
`unplaced_services` set `{ "<server_type>/<i>" | 0 ≤ i < count }`. -/
def expandService (st : String) (cnt : Nat) (acc : List String) :
    List String :=
  (List.range cnt).foldl (fun a i => sinsert (st ++ "/" ++ toString i) a) acc

def expandServices (svcs : List ServiceSpec) : List String :=
  svcs.foldl (fun a sn => expandService sn.server_type sn.count a) []

/-- Lines 185–194: consume the services of one bundle, moving each from
`unplaced_services` into `node_service_map[alias]`. -/
def consumeServices (al : String) :
    List String → List String → List (String × List String) →
      Except Status (List String × List (String × List String))
  | [], unplaced, nsm => Except.ok (unplaced, nsm)
  | s :: rest, unplaced, nsm =>
    if s ∈ unplaced then
      consumeServices al rest (unplaced.erase s) (nsmAdd al s nsm)
    else
      Except.error ⟨StatusCode.NOT_FOUND,
        "Service " ++ s ++ " was not found or already placed."⟩

/-- Lines 184–202: consume all `node_service_bundles`; after each
bundle's services, the bundle's alias must still be in `idle_nodes` and
is removed from it. -/
def consumeBundles :
    List (String × List String) → List String →
      List (String × List String) → List String →
      Except Status (List String × List (String × List String) × List String)
  | [], unplaced, nsm, idle => Except.ok (unplaced, nsm, idle)
  | (al, svcs) :: rest, unplaced, nsm, idle =>
    match consumeServices al svcs unplaced nsm with
    | Except.error e => Except.error e
    | Except.ok (unplaced', nsm') =>
      if al ∈ idle then
        consumeBundles rest unplaced' nsm' (idle.erase al)
      else
        Except.error ⟨StatusCode.NOT_FOUND,
          "Node " ++ al ++ " was not found or not idle."⟩

/-- Lines 211–224: auto-place the remaining services onto the first
(lowest) remaining idle node; once `idle_nodes` is exhausted, append
each leftover service to the comma-separated `failures` string.
Returns `(failures, node_service_map, idle_nodes)`. -/
def autoPlace :
    List String → List String → List (String × List String) → String →
      String × List (String × List String) × List String
  | [], idle, nsm, failures => (failures, nsm, idle)
  | s :: rest, idle, nsm, failures =>
    match idle with
    | [] =>
      autoPlace rest [] nsm
        (if failures = "" then s else failures ++ ", " ++ s)
    | a :: idleRest => autoPlace rest idleRest (nsmAdd a s nsm) failures

/-- Lines 163–233 of `TestSequencer::DoRunTest`: validation and the full
placement algorithm, from the snapshot `aliases` of the currently-known
node aliases to the final `node_service_map` (or the error that aborts
the test). -/
def placeServices (aliases : List String) (d : Description) :
    Except Status (List (String × List String)) :=
  if d.services = [] then
    Except.error ⟨StatusCode.INVALID_ARGUMENT, "No services defined."⟩
  else
    match consumeBundles d.node_service_bundles
        (expandServices d.services) [] aliases with
    | Except.error e => Except.error e
    | Except.ok (unplaced1, nsm1, idle1) =>
      match autoPlace unplaced1 idle1 nsm1 "" with
      | (failures, nsm2, idle2) =>
        if failures ≠ "" then
          Except.error ⟨StatusCode.NOT_FOUND,
            "No idle node for placement of services: " ++ failures⟩
        else
          Except.ok (idle2.foldl (fun m a => nsmTouch a m) nsm2)

/-- Lines 166–173: the snapshot `idle_nodes` taken at the top of
`DoRunTest` — every currently-known alias is inserted into a
`std::set`, regardless of the node's `idle` flag. -/
def snapshotAliases (s : SequencerState) : List String :=
  s.node_map.foldl (fun acc p => sinsert p.1 acc) []

/-! ## Fan-out phases (`ConfigureNodes`, `IntroducePeers`, `RunTraffic`)

Each phase issues one async RPC per entry of the `node_service_map` and
drains a completion queue until the outstanding count reaches zero.  The
model takes the per-RPC completions (status and response payload) in
completion-queue order as an input. -/

/-- A `ServiceEndpointMap` proto: `service-instance → endpoint`. -/
abbrev ServiceEndpointMap := List (String × String)

/-- A `ServiceLogs` proto: one entry per service instance. -/
abbrev ServiceLogs := List (String × String)

/-- `ret.MergeFrom(finished_rpc->response)` for `ServiceEndpointMap`:
proto repeated/map-field merge, concatenation of the entries. -/
def semMergeFrom (a b : ServiceEndpointMap) : ServiceEndpointMap := a ++ b

/-- `ret.MergeFrom(finished_rpc->response)` for `ServiceLogs`. -/
def slMergeFrom (a b : ServiceLogs) : ServiceLogs := a ++ b

/-- The shared `while (rpc_count) { cq.Next(...) }` drain loop of
`ConfigureNodes` / `IntroducePeers` (lines 294–307, 341–352): each
completion decrements `rpc_count`, merges the response into the
accumulator, and overwrites the retained `status` when the completion is
non-OK.  Returns the accumulator, the retained status, and the number of
RPCs still outstanding when the queue is exhausted (`0` = drained). -/
def drainQueue {ρ α : Type} (merge : α → ρ → α) :
    Nat → List (Status × ρ) → α → Status → α × Status × Nat
  | 0, _, acc, st => (acc, st, 0)
  | n + 1, [], acc, st => (acc, st, n + 1)
  | n + 1, (rs, rr) :: rest, acc, st =>
    drainQueue merge n rest (merge acc rr) (if rs.isOk then st else rs)

/-- The observable outcome of one fan-out phase: the returned value or
error, the internally retained status, and the outstanding-RPC count at
return. -/
structure FanoutResult (α : Type) where
  result : Except Status α
  retained : Status
  leftover : Nat

/-- `TestSequencer::ConfigureNodes` (lines 265–313): fan out one
`ConfigureNode` RPC per `node_service_map` entry, drain, merge the
partial `ServiceEndpointMap`s, and collapse any failure into
INVALID_ARGUMENT "Unknown GRPC error2". -/
def configureNodes (nsm : List (String × List String))
    (outs : List (Status × ServiceEndpointMap)) :
    FanoutResult ServiceEndpointMap :=
  match drainQueue semMergeFrom nsm.length outs [] statusOK with
  | (ret, st, leftover) =>
    ⟨if st.isOk then Except.ok ret
      else Except.error
        ⟨StatusCode.INVALID_ARGUMENT, "Unknown GRPC error2"⟩,
     st, leftover⟩

/-- `TestSequencer::IntroducePeers` (lines 315–358): acknowledgement-only
fan-out; any failure collapses into INVALID_ARGUMENT
"Unknown GRPC error". -/
def introducePeers (nsm : List (String × List String))
    (outs : List (Status × Unit)) : FanoutResult Unit :=
  match drainQueue (fun a _ => a) nsm.length outs () statusOK with
  | (_, st, leftover) =>
    ⟨if st.isOk then Except.ok ()
      else Except.error
        ⟨StatusCode.INVALID_ARGUMENT, "Unknown GRPC error"⟩,
     st, leftover⟩

/-- Write one node's `idle` flag in `node_map_` (no-op on a missing
alias; callers QCHECK that the alias is present). -/
def setNodeIdle (k : String) (b : Bool) :
    List (String × Node) → List (String × Node)
  | [] => []
  | (k', v) :: rest =>
    if k = k' then (k', ⟨v.registration, b⟩) :: rest
    else (k', v) :: setNodeIdle k b rest

/-- The dispatch loop of `RunTraffic` (lines 376–386): before each RPC
is issued, the targeted node's `idle` flag is set to `false`. -/
def runTrafficDispatch (s : SequencerState)
    (nsm : List (String × List String)) : SequencerState :=
  { s with
    node_map := nsm.foldl (fun m p => setNodeIdle p.1 false m) s.node_map }

/-- The drain loop of `RunTraffic` (lines 387–400): on each completion
(whatever its status) the node's `idle` flag is set back to `true` and
its `ServiceLogs` are merged. -/
def runTrafficDrain :
    Nat → List (String × Status × ServiceLogs) → SequencerState →
      ServiceLogs → Status → SequencerState × ServiceLogs × Status × Nat
  | 0, _, s, acc, st => (s, acc, st, 0)
  | n + 1, [], s, acc, st => (s, acc, st, n + 1)
  | n + 1, (a, rs, rr) :: rest, s, acc, st =>
    runTrafficDrain n rest
      { s with node_map := setNodeIdle a true s.node_map }
      (slMergeFrom acc rr)
      (if rs.isOk then st else rs)

/-- `TestSequencer::RunTraffic` (lines 360–406).  `outs` pairs each
completion with the alias of the node it came from. -/
def runTraffic (s : SequencerState) (nsm : List (String × List String))
    (outs : List (String × Status × ServiceLogs)) :
    SequencerState × FanoutResult ServiceLogs :=
  match runTrafficDrain nsm.length outs (runTrafficDispatch s nsm) []
      statusOK with
  | (s2, ret, st, leftover) =>
    (s2,
     ⟨if st.isOk then Except.ok ret
       else Except.error
         ⟨StatusCode.INVALID_ARGUMENT, "Unknown GRPC error2"⟩,
      st, leftover⟩)

/-- The fan-out phases `DoRunTest` can issue, in issue order. -/
inductive PhaseTag
  | configure
  | introduce
  | runTraffic
deriving DecidableEq, Repr

/-- The per-phase worker completions consumed by one `DoRunTest` call. -/
structure PhaseOuts where
  cfg : List (Status × ServiceEndpointMap)
  intro : List (Status × Unit)
  traffic : List (String × Status × ServiceLogs)

/-- The `TestResult` proto assembled at the end of `DoRunTest`
(lines 254–259). -/
structure TestResult where
  traffic_config : Description
  placement : ServiceEndpointMap
  service_logs : ServiceLogs
deriving DecidableEq

/-- `TestSequencer::DoRunTest` (lines 160–263): placement, then
Configure → Introduce → RunTraffic in strict sequence, stopping at the
first failure.  Also returns the list of fan-out phases that actually
issued RPCs. -/
def doRunTest (s : SequencerState) (d : Description) (po : PhaseOuts) :
    SequencerState × Except Status TestResult × List PhaseTag :=
  match placeServices (snapshotAliases s) d with
  | Except.error e => (s, Except.error e, [])
  | Except.ok nsm =>
    match (configureNodes nsm po.cfg).result with
    | Except.error e => (s, Except.error e, [PhaseTag.configure])
    | Except.ok service_map =>
      match (introducePeers nsm po.intro).result with
      | Except.error e =>
        (s, Except.error e, [PhaseTag.configure, PhaseTag.introduce])
      | Except.ok _ =>
        match runTraffic s nsm po.traffic with
        | (s2, trR) =>
          match trR.result with
          | Except.error e =>
            (s2, Except.error e,
             [PhaseTag.configure, PhaseTag.introduce, PhaseTag.runTraffic])
          | Except.ok logs =>
            (s2, Except.ok ⟨d, service_map, logs⟩,
             [PhaseTag.configure, PhaseTag.introduce, PhaseTag.runTraffic])

/-- `TestSequencer::DoRunTestSequence` (lines 139–158): run each test in
order; before each test consult the active request's cancellation flag;
any test failure aborts the sequence with ABORTED carrying the
underlying error's message. -/
def doRunTestSequence (cancelled : Bool) :
    SequencerState → List (Description × PhaseOuts) → List TestResult →
      SequencerState × Status × List TestResult
  | s, [], results => (s, ⟨StatusCode.OK, ""⟩, results)
  | s, (d, po) :: rest, results =>
    if cancelled then
      (s, ⟨StatusCode.ABORTED, "Cancelled by new test sequence."⟩, results)
    else
      match doRunTest s d po with
      | (s', Except.ok tr, _) =>
        doRunTestSequence cancelled s' rest (results ++ [tr])
      | (s', Except.error e, _) =>
        (s', ⟨StatusCode.ABORTED, e.message⟩, results)

/-- Reassign every node's `idle` flag (used to state that placement
never consults the flags). -/
def setIdleFlags (f : String → Bool) (s : SequencerState) : SequencerState :=
  { s with
    node_map := s.node_map.map (fun p => (p.1, ⟨p.2.registration, f p.1⟩)) }

/-! ## Sorted-set lemmas -/

theorem char_eq_of_toNat_eq {c d : Char} (h : c.toNat = d.toNat) :
    c = d :=
  Char.ext (UInt32.ext h)

theorem charListLt_irrefl : ∀ l : List Char, charListLt l l = false := by
  intro l
  induction l with
  | nil => rfl
  | cons c cs ih => simp [charListLt, ih]

theorem charListLt_cons (c d : Char) (cs ds : List Char) :
    charListLt (c :: cs) (d :: ds) = true ↔
      c.toNat < d.toNat ∨
        (c.toNat = d.toNat ∧ charListLt cs ds = true) := by
  by_cases h1 : c.toNat < d.toNat
  · simp [charListLt, h1]
  · by_cases h2 : d.toNat < c.toNat
    · simp only [charListLt, if_neg h1, if_pos h2]
      constructor
      · intro h
        exact absurd h (by simp)
      · rintro (h | ⟨h, _⟩) <;> omega
    · have he : c.toNat = d.toNat := by omega
      simp only [charListLt, if_neg h1, if_neg h2]
      constructor
      · intro h
        exact Or.inr ⟨he, h⟩
      · rintro (h | ⟨_, h⟩)
        · omega
        · exact h

theorem charListLt_trans : ∀ {a b c : List Char},
    charListLt a b = true → charListLt b c = true →
      charListLt a c = true := by
  intro a
  induction a with
  | nil =>
    intro b c hab hbc
    cases b with
    | nil => simp [charListLt] at hab
    | cons y ys =>
      cases c with
      | nil => simp [charListLt] at hbc
      | cons z zs => rfl
  | cons x xs ih =>
    intro b c hab hbc
    cases b with
    | nil => simp [charListLt] at hab
    | cons y ys =>
      cases c with
      | nil => simp [charListLt] at hbc
      | cons z zs =>
        rw [charListLt_cons] at hab hbc ⊢
        rcases hab with h1 | ⟨h1, hr1⟩ <;> rcases hbc with h2 | ⟨h2, hr2⟩
        · exact Or.inl (by omega)
        · exact Or.inl (by omega)
        · exact Or.inl (by omega)
        · exact Or.inr ⟨by omega, ih hr1 hr2⟩

theorem charListLt_eq_of_not : ∀ a b : List Char,
    charListLt a b = false → charListLt b a = false → a = b := by
  intro a
  induction a with
  | nil =>
    intro b h1 _
    cases b with
    | nil => rfl
    | cons y ys => simp [charListLt] at h1
  | cons x xs ih =>
    intro b h1 h2
    cases b with
    | nil => simp [charListLt] at h2
    | cons y ys =>
      by_cases hxy : x.toNat < y.toNat
      · have ht : charListLt (x :: xs) (y :: ys) = true :=
          (charListLt_cons x y xs ys).mpr (Or.inl hxy)
        rw [h1] at ht
        exact absurd ht (by simp)
      · by_cases hyx : y.toNat < x.toNat
        · have ht : charListLt (y :: ys) (x :: xs) = true :=
            (charListLt_cons y x ys xs).mpr (Or.inl hyx)
          rw [h2] at ht
          exact absurd ht (by simp)
        · have he : x.toNat = y.toNat := by omega
          have hx : x = y := char_eq_of_toNat_eq he
          simp only [charListLt, if_neg hxy, if_neg hyx] at h1
          simp only [charListLt, if_neg hyx, if_neg hxy] at h2
          rw [hx, ih ys h1 h2]

theorem strLt_irrefl (a : String) : strLt a a = false :=
  charListLt_irrefl a.data

theorem strLt_trans {a b c : String} (h1 : strLt a b = true)
    (h2 : strLt b c = true) : strLt a c = true :=
  charListLt_trans h1 h2

theorem strLt_eq_of_not {a b : String} (h1 : strLt a b = false)
    (h2 : strLt b a = false) : a = b :=
  String.ext (charListLt_eq_of_not a.data b.data h1 h2)

theorem strLt_ne {a b : String} (h : strLt a b = true) : a ≠ b := by
  intro he
  subst he
  rw [strLt_irrefl] at h
  exact absurd h (by simp)

theorem strLt_cases (a b : String) :
    strLt a b = true ∨ a = b ∨ strLt b a = true := by
  cases h1 : strLt a b with
  | true => exact Or.inl rfl
  | false =>
    cases h2 : strLt b a with
    | true => exact Or.inr (Or.inr rfl)
    | false => exact Or.inr (Or.inl (strLt_eq_of_not h1 h2))

/-- A list sorted strictly by `std::string::operator<` has no
duplicates. -/
theorem sorted_sLtR_nodup {l : List String}
    (h : l.Sorted sLtR) : l.Nodup :=
  h.imp (fun hr => strLt_ne hr)

theorem mem_sinsert (a x : String) :
    ∀ l : List String, a ∈ sinsert x l ↔ a = x ∨ a ∈ l := by
  intro l
  induction l with
  | nil => simp [sinsert]
  | cons y ys ih =>
    by_cases h1 : strLt x y = true
    · simp [sinsert, h1]
    · by_cases h2 : x = y
      · subst h2
        simp [sinsert, h1]
      · simp only [sinsert, if_neg h1, if_neg h2, List.mem_cons, ih]
        tauto

theorem sinsert_sorted (x : String) :
    ∀ l : List String, l.Sorted sLtR → (sinsert x l).Sorted sLtR := by
  intro l
  induction l with
  | nil => intro _; simp [sinsert, sLtR]
  | cons y ys ih =>
    intro h
    rw [List.sorted_cons] at h
    obtain ⟨hy, hys⟩ := h
    by_cases h1 : strLt x y = true
    · simp only [sinsert, if_pos h1]
      rw [List.sorted_cons]
      refine ⟨?_, List.sorted_cons.mpr ⟨hy, hys⟩⟩
      intro b hb
      rcases List.mem_cons.mp hb with rfl | hb
      · exact h1
      · exact strLt_trans h1 (hy b hb)
    · by_cases h2 : x = y
      · subst h2
        simp only [sinsert, if_neg h1, if_pos rfl]
        exact List.sorted_cons.mpr ⟨hy, hys⟩
      · simp only [sinsert, if_neg h1, if_neg h2]
        rw [List.sorted_cons]
        refine ⟨?_, ih hys⟩
        intro b hb
        rcases (mem_sinsert b x ys).mp hb with rfl | hb
        · rcases strLt_cases b y with hlt | heq | hgt
          · exact absurd hlt h1
          · exact absurd heq h2
          · exact hgt
        · exact hy b hb

theorem sinsert_perm_of_not_mem (x : String) :
    ∀ l : List String, x ∉ l → List.Perm (sinsert x l) (x :: l) := by
  intro l
  induction l with
  | nil => intro _; simp [sinsert]
  | cons y ys ih =>
    intro hx
    simp only [List.mem_cons, not_or] at hx
    by_cases h1 : strLt x y = true
    · simp [sinsert, h1]
    · simp only [sinsert, if_neg h1, if_neg hx.1]
      exact List.Perm.trans ((ih hx.2).cons y) (List.Perm.swap x y ys)

/-- Membership in a fold of `sinsert`s (the way every `std::set` in
`DoRunTest` is populated). -/
theorem mem_foldl_sinsert {β : Type} (key : β → String) :
    ∀ (l : List β) (acc : List String) (a : String),
      a ∈ l.foldl (fun ac p => sinsert (key p) ac) acc ↔
        a ∈ acc ∨ ∃ p ∈ l, key p = a := by
  intro l
  induction l with
  | nil => simp
  | cons p rest ih =>
    intro acc a
    rw [List.foldl_cons, ih, mem_sinsert]
    constructor
    · rintro ((rfl | h) | ⟨q, hq, rfl⟩)
      · exact Or.inr ⟨p, List.mem_cons_self _ _, rfl⟩
      · exact Or.inl h
      · exact Or.inr ⟨q, List.mem_cons_of_mem _ hq, rfl⟩
    · rintro (h | ⟨q, hq, rfl⟩)
      · exact Or.inl (Or.inr h)
      · rcases List.mem_cons.mp hq with rfl | hq
        · exact Or.inl (Or.inl rfl)
        · exact Or.inr ⟨q, hq, rfl⟩

theorem foldl_sinsert_sorted {β : Type} (key : β → String) :
    ∀ (l : List β) (acc : List String), acc.Sorted sLtR →
      (l.foldl (fun ac p => sinsert (key p) ac) acc).Sorted sLtR := by
  intro l
  induction l with
  | nil => intro acc h; exact h
  | cons p rest ih =>
    intro acc h
    exact ih _ (sinsert_sorted _ _ h)

/-- Membership in the expanded service-instance set. -/
theorem mem_expandService (st : String) (cnt : Nat) (acc : List String)
    (x : String) :
    x ∈ expandService st cnt acc ↔
      x ∈ acc ∨ ∃ i, i < cnt ∧ x = st ++ "/" ++ toString i := by
  rw [expandService, mem_foldl_sinsert]
  constructor
  · rintro (h | ⟨i, hi, rfl⟩)
    · exact Or.inl h
    · exact Or.inr ⟨i, List.mem_range.mp hi, rfl⟩
  · rintro (h | ⟨i, hi, rfl⟩)
    · exact Or.inl h
    · exact Or.inr ⟨i, List.mem_range.mpr hi, rfl⟩

theorem mem_expandServices_general (svcs : List ServiceSpec) :
    ∀ (acc : List String) (x : String),
      x ∈ svcs.foldl (fun a sn => expandService sn.server_type sn.count a)
        acc ↔
      x ∈ acc ∨ ∃ sn ∈ svcs, ∃ i, i < sn.count ∧
        x = sn.server_type ++ "/" ++ toString i := by
  induction svcs with
  | nil => simp
  | cons sn rest ih =>
    intro acc x
    rw [List.foldl_cons, ih, mem_expandService]
    constructor
    · rintro ((h | ⟨i, hi, rfl⟩) | ⟨q, hq, hx⟩)
      · exact Or.inl h
      · exact Or.inr ⟨sn, List.mem_cons_self _ _, i, hi, rfl⟩
      · exact Or.inr ⟨q, List.mem_cons_of_mem _ hq, hx⟩
    · rintro (h | ⟨q, hq, i, hi, hx⟩)
      · exact Or.inl (Or.inl h)
      · rcases List.mem_cons.mp hq with rfl | hq
        · exact Or.inl (Or.inr ⟨i, hi, hx⟩)
        · exact Or.inr ⟨q, hq, i, hi, hx⟩

/-- `unplaced_services` is exactly the requested set
`{ "<server_type>/<i>" | 0 ≤ i < count }`. -/
theorem mem_expandServices (svcs : List ServiceSpec) (x : String) :
    x ∈ expandServices svcs ↔
      ∃ sn ∈ svcs, ∃ i, i < sn.count ∧
        x = sn.server_type ++ "/" ++ toString i := by
  rw [expandServices, mem_expandServices_general]
  simp

theorem expandServices_sorted (svcs : List ServiceSpec) :
    (expandServices svcs).Sorted sLtR := by
  rw [expandServices]
  have hgen : ∀ (l : List ServiceSpec) (acc : List String),
      acc.Sorted sLtR →
      (l.foldl (fun a sn => expandService sn.server_type sn.count a)
        acc).Sorted sLtR := by
    intro l
    induction l with
    | nil => intro acc h; exact h
    | cons sn rest ih =>
      intro acc h
      exact ih _ (foldl_sinsert_sorted _ _ _ h)
  exact hgen svcs [] (by simp)

/-- Expanded service-instance names are never the empty string. -/
theorem expandServices_ne_empty (svcs : List ServiceSpec) (x : String)
    (h : x ∈ expandServices svcs) : x ≠ "" := by
  obtain ⟨sn, _, i, _, rfl⟩ := (mem_expandServices svcs x).mp h
  intro hc
  have hd := congrArg String.data hc
  simp [String.data_append] at hd

/-! ## C10: the placement candidate pool ignores the idle flags -/

theorem snapshotAliases_eq_keys_fold (s : SequencerState) :
    snapshotAliases s
      = (s.node_map.map Prod.fst).foldl (fun ac k => sinsert k ac) [] := by
  rw [snapshotAliases]
  generalize ([] : List String) = acc
  induction s.node_map generalizing acc with
  | nil => simp
  | cons p rest ih => simpa using ih _

/-- C10: the candidate pool snapshot taken by `DoRunTest` is exactly the
set of all currently-registered aliases, computed without consulting any
node's `idle` flag: membership in the snapshot coincides with key
membership in `node_map_`; reassigning every idle flag changes neither
the snapshot nor the placement computed from it; and concretely a node
whose idle flag is `false` is still chosen to host a service instance. -/
theorem placement_pool_ignores_idle_flags :
    (∀ (s : SequencerState) (a : String),
      a ∈ snapshotAliases s ↔ a ∈ s.node_map.map Prod.fst)
    ∧ (∀ (s : SequencerState) (f : String → Bool),
      snapshotAliases (setIdleFlags f s) = snapshotAliases s)
    ∧ (∀ (s : SequencerState) (f : String → Bool) (d : Description),
      placeServices (snapshotAliases (setIdleFlags f s)) d
        = placeServices (snapshotAliases s) d)
    ∧ placeServices
        (snapshotAliases ⟨[("node0", ⟨⟨"h", 1⟩, false⟩)], [(⟨"h", 1⟩, 0)]⟩)
        ⟨[⟨"A", 1⟩], []⟩
      = Except.ok [("node0", ["A/0"])] := by
  have hkeys : ∀ (s : SequencerState) (f : String → Bool),
      (setIdleFlags f s).node_map.map Prod.fst
        = s.node_map.map Prod.fst := by
    intro s f
    simp [setIdleFlags, List.map_map, Function.comp]
  have hsnap : ∀ (s : SequencerState) (f : String → Bool),
      snapshotAliases (setIdleFlags f s) = snapshotAliases s := by
    intro s f
    rw [snapshotAliases_eq_keys_fold, snapshotAliases_eq_keys_fold, hkeys]
  refine ⟨?_, hsnap, ?_, ?_⟩
  · intro s a
    rw [snapshotAliases]
    rw [mem_foldl_sinsert Prod.fst]
    simp
  · intro s f d
    rw [hsnap]
  · rfl

/-! ## C2: fan-out drain behaviour -/

/-- When the completion queue delivers exactly as many completions as
RPCs were issued, the drain loop consumes them all (outstanding count 0)
and computes left folds of the merge and of the status overwrite. -/
theorem drainQueue_eq {ρ α : Type} (merge : α → ρ → α) :
    ∀ (outs : List (Status × ρ)) (n : Nat) (acc : α) (st : Status),
      outs.length = n →
      drainQueue merge n outs acc st =
        (outs.foldl (fun a o => merge a o.2) acc,
         outs.foldl (fun t o => if o.1.isOk then t else o.1) st, 0) := by
  intro outs
  induction outs with
  | nil =>
    intro n acc st h
    subst h
    rfl
  | cons o rest ih =>
    intro n acc st h
    obtain ⟨rs, rr⟩ := o
    subst h
    simp only [List.length_cons, drainQueue, List.foldl_cons]
    exact ih _ _ _ rfl

/-- The retained status of a drain loop is the last non-OK completion
status observed (or the initial status when none failed). -/
theorem statusFold_spec (sts : List Status) :
    ∀ st : Status,
      sts.foldl (fun t u => if u.isOk then t else u) st
        = ((sts.filter (fun t => !t.isOk)).getLast?).getD st := by
  induction sts with
  | nil => intro st; rfl
  | cons u rest ih =>
    intro st
    rw [List.foldl_cons]
    by_cases h : u.isOk
    · rw [if_pos h, ih st]
      simp [h]
    · rw [if_neg h, ih u]
      have hbool : (!u.isOk) = true := by
        simp only [Bool.not_eq_true']
        exact Bool.eq_false_iff.mpr h
      simp only [List.filter_cons, hbool, if_true]
      cases hf : rest.filter (fun t => !t.isOk) with
      | nil => simp
      | cons b bs =>
        obtain ⟨c, hc⟩ := Option.isSome_iff_exists.mp
          (List.getLast?_isSome.mpr (List.cons_ne_nil b bs))
        simp [List.getLast?_cons_cons, hc]

theorem statusFold_all_ok (sts : List Status) (st : Status)
    (h : ∀ u ∈ sts, u.isOk = true) :
    sts.foldl (fun t u => if u.isOk then t else u) st = st := by
  rw [statusFold_spec]
  have hnil : sts.filter (fun t => !t.isOk) = [] := by
    rw [List.filter_eq_nil_iff]
    intro a ha
    simp [h a ha]
  simp [hnil]

theorem statusFold_bad (sts : List Status)
    (h : ∃ u ∈ sts, u.isOk = false) :
    ∃ b : Status,
      (sts.filter (fun t => !t.isOk)).getLast? = some b
      ∧ b.isOk = false
      ∧ sts.foldl (fun t u => if u.isOk then t else u) statusOK = b := by
  have hne : sts.filter (fun t => !t.isOk) ≠ [] := by
    obtain ⟨u, hu, hbad⟩ := h
    intro hc
    have hm : u ∈ sts.filter (fun t => !t.isOk) :=
      List.mem_filter.mpr ⟨hu, by simp [hbad]⟩
    rw [hc] at hm
    exact List.not_mem_nil _ hm
  have hsome : ((sts.filter (fun t => !t.isOk)).getLast?).isSome :=
    List.getLast?_isSome.mpr hne
  obtain ⟨b, hb⟩ := Option.isSome_iff_exists.mp hsome
  have hmem : b ∈ sts.filter (fun t => !t.isOk) :=
    List.mem_of_mem_getLast? (by rw [hb]; rfl)
  have hbad : b.isOk = false := by
    have := (List.mem_filter.mp hmem).2
    simpa using this
  refine ⟨b, hb, hbad, ?_⟩
  rw [statusFold_spec, hb]
  rfl

/-- Normal form of the `RunTraffic` drain loop when the queue delivers
exactly as many completions as RPCs were issued. -/
theorem runTrafficDrain_eq :
    ∀ (outs : List (String × Status × ServiceLogs)) (n : Nat)
      (s : SequencerState) (acc : ServiceLogs) (st : Status),
      outs.length = n →
      runTrafficDrain n outs s acc st =
        (outs.foldl
          (fun t o => { t with node_map := setNodeIdle o.1 true t.node_map })
          s,
         outs.foldl (fun a o => slMergeFrom a o.2.2) acc,
         outs.foldl (fun t o => if o.2.1.isOk then t else o.2.1) st, 0) := by
  intro outs
  induction outs with
  | nil =>
    intro n s acc st h
    subst h
    rfl
  | cons o rest ih =>
    intro n s acc st h
    obtain ⟨a, rs, rr⟩ := o
    subst h
    simp only [List.length_cons, runTrafficDrain, List.foldl_cons]
    exact ih _ _ _ _ rfl

theorem statusOK_isOk : statusOK.isOk = true := rfl

/-- C2 (amended): for each fan-out phase, when the completion queue
delivers one completion per issued RPC, every issued RPC is awaited (the
outstanding count reaches zero); if all completions are OK the phase
returns the merged accumulator and OK; if any completion is non-OK the
phase returns INVALID_ARGUMENT with the fixed message
"Unknown GRPC error2" (ConfigureNodes, RunTraffic) or
"Unknown GRPC error" (IntroducePeers), and the internally retained status
is the LAST non-OK status observed — which is then discarded in favour of
the fixed message. -/
theorem fanout_awaits_and_collapses_errors
    (nsm : List (String × List String)) (s : SequencerState)
    (couts : List (Status × ServiceEndpointMap))
    (iouts : List (Status × Unit))
    (routs : List (String × Status × ServiceLogs))
    (hc : couts.length = nsm.length) (hi : iouts.length = nsm.length)
    (hr : routs.length = nsm.length) :
    ((configureNodes nsm couts).leftover = 0
      ∧ ((∀ o ∈ couts, o.1.isOk = true) →
          (configureNodes nsm couts).result
            = Except.ok (couts.foldl (fun a o => semMergeFrom a o.2) [])
          ∧ (configureNodes nsm couts).retained = statusOK)
      ∧ ((∃ o ∈ couts, o.1.isOk = false) →
          (configureNodes nsm couts).result
            = Except.error
                ⟨StatusCode.INVALID_ARGUMENT, "Unknown GRPC error2"⟩
          ∧ some (configureNodes nsm couts).retained
            = ((couts.map Prod.fst).filter (fun t => !t.isOk)).getLast?))
    ∧ ((introducePeers nsm iouts).leftover = 0
      ∧ ((∀ o ∈ iouts, o.1.isOk = true) →
          (introducePeers nsm iouts).result = Except.ok ()
          ∧ (introducePeers nsm iouts).retained = statusOK)
      ∧ ((∃ o ∈ iouts, o.1.isOk = false) →
          (introducePeers nsm iouts).result
            = Except.error
                ⟨StatusCode.INVALID_ARGUMENT, "Unknown GRPC error"⟩
          ∧ some (introducePeers nsm iouts).retained
            = ((iouts.map Prod.fst).filter (fun t => !t.isOk)).getLast?))
    ∧ ((runTraffic s nsm routs).2.leftover = 0
      ∧ ((∀ o ∈ routs, o.2.1.isOk = true) →
          (runTraffic s nsm routs).2.result
            = Except.ok (routs.foldl (fun a o => slMergeFrom a o.2.2) [])
          ∧ (runTraffic s nsm routs).2.retained = statusOK)
      ∧ ((∃ o ∈ routs, o.2.1.isOk = false) →
          (runTraffic s nsm routs).2.result
            = Except.error
                ⟨StatusCode.INVALID_ARGUMENT, "Unknown GRPC error2"⟩
          ∧ some (runTraffic s nsm routs).2.retained
            = ((routs.map (fun o => o.2.1)).filter
                (fun t => !t.isOk)).getLast?)) := by
  have hcfg := drainQueue_eq semMergeFrom couts nsm.length [] statusOK hc
  have hint := drainQueue_eq (fun a _ => a) iouts nsm.length () statusOK hi
  have hrtd := runTrafficDrain_eq routs nsm.length
    (runTrafficDispatch s nsm) [] statusOK hr
  have hcstat : couts.foldl (fun t o => if o.1.isOk then t else o.1) statusOK
      = (couts.map Prod.fst).foldl (fun t u => if u.isOk then t else u)
          statusOK := by
    rw [List.foldl_map]
  have histat : iouts.foldl (fun t o => if o.1.isOk then t else o.1) statusOK
      = (iouts.map Prod.fst).foldl (fun t u => if u.isOk then t else u)
          statusOK := by
    rw [List.foldl_map]
  have hrstat :
      routs.foldl (fun t o => if o.2.1.isOk then t else o.2.1) statusOK
      = (routs.map (fun o => o.2.1)).foldl
          (fun t u => if u.isOk then t else u) statusOK := by
    rw [List.foldl_map]
  refine ⟨⟨?_, ?_, ?_⟩, ⟨?_, ?_, ?_⟩, ⟨?_, ?_, ?_⟩⟩
  · simp [configureNodes, hcfg]
  · intro hok
    have hst : couts.foldl (fun t o => if o.1.isOk then t else o.1) statusOK
        = statusOK := by
      rw [hcstat]
      exact statusFold_all_ok _ _ (by
        intro u hu
        obtain ⟨o, ho, rfl⟩ := List.mem_map.mp hu
        exact hok o ho)
    constructor
    · simp [configureNodes, hcfg, hst, statusOK_isOk]
    · simp [configureNodes, hcfg, hst]
  · intro hbad
    obtain ⟨b, hlast, hbok, hfold⟩ := statusFold_bad (couts.map Prod.fst)
      (by
        obtain ⟨o, ho, h1⟩ := hbad
        exact ⟨o.1, List.mem_map.mpr ⟨o, ho, rfl⟩, h1⟩)
    have hst : couts.foldl (fun t o => if o.1.isOk then t else o.1) statusOK
        = b := by
      rw [hcstat]
      exact hfold
    constructor
    · simp [configureNodes, hcfg, hst, hbok]
    · simp [configureNodes, hcfg, hst, hlast]
  · simp [introducePeers, hint]
  · intro hok
    have hst : iouts.foldl (fun t o => if o.1.isOk then t else o.1) statusOK
        = statusOK := by
      rw [histat]
      exact statusFold_all_ok _ _ (by
        intro u hu
        obtain ⟨o, ho, rfl⟩ := List.mem_map.mp hu
        exact hok o ho)
    constructor
    · simp [introducePeers, hint, hst, statusOK_isOk]
    · simp [introducePeers, hint, hst]
  · intro hbad
    obtain ⟨b, hlast, hbok, hfold⟩ := statusFold_bad (iouts.map Prod.fst)
      (by
        obtain ⟨o, ho, h1⟩ := hbad
        exact ⟨o.1, List.mem_map.mpr ⟨o, ho, rfl⟩, h1⟩)
    have hst : iouts.foldl (fun t o => if o.1.isOk then t else o.1) statusOK
        = b := by
      rw [histat]
      exact hfold
    constructor
    · simp [introducePeers, hint, hst, hbok]
    · simp [introducePeers, hint, hst, hlast]
  · simp [runTraffic, hrtd]
  · intro hok
    have hst :
        routs.foldl (fun t o => if o.2.1.isOk then t else o.2.1) statusOK
        = statusOK := by
      rw [hrstat]
      exact statusFold_all_ok _ _ (by
        intro u hu
        obtain ⟨o, ho, rfl⟩ := List.mem_map.mp hu
        exact hok o ho)
    constructor
    · simp [runTraffic, hrtd, hst, statusOK_isOk]
    · simp [runTraffic, hrtd, hst]
  · intro hbad
    obtain ⟨b, hlast, hbok, hfold⟩ := statusFold_bad
      (routs.map (fun o => o.2.1))
      (by
        obtain ⟨o, ho, h1⟩ := hbad
        exact ⟨o.2.1, List.mem_map.mpr ⟨o, ho, rfl⟩, h1⟩)
    have hst :
        routs.foldl (fun t o => if o.2.1.isOk then t else o.2.1) statusOK
        = b := by
      rw [hrstat]
      exact hfold
    constructor
    · simp [runTraffic, hrtd, hst, hbok]
    · simp [runTraffic, hrtd, hst, hlast]

/-- C2 counterexample: with two distinct failed completions the drain
loop retains the LAST non-OK status ("e2"), not the first ("e1"), and
the error returned carries the literal message "Unknown GRPC error2",
which does not contain "Unknown RPC error". -/
theorem fanout_retains_last_not_first :
    (configureNodes [("node0", []), ("node1", [])]
        [(⟨StatusCode.UNKNOWN, "e1"⟩, []),
         (⟨StatusCode.UNKNOWN, "e2"⟩, [])]).retained
      = ⟨StatusCode.UNKNOWN, "e2"⟩
    ∧ ((([(⟨StatusCode.UNKNOWN, "e1"⟩, []),
          (⟨StatusCode.UNKNOWN, "e2"⟩, [])] :
            List (Status × ServiceEndpointMap)).map
            Prod.fst).filter (fun t => !t.isOk)).head?
      = some ⟨StatusCode.UNKNOWN, "e1"⟩
    ∧ (⟨StatusCode.UNKNOWN, "e2"⟩ : Status) ≠ ⟨StatusCode.UNKNOWN, "e1"⟩
    ∧ (configureNodes [("node0", []), ("node1", [])]
        [(⟨StatusCode.UNKNOWN, "e1"⟩, []),
         (⟨StatusCode.UNKNOWN, "e2"⟩, [])]).result
      = Except.error ⟨StatusCode.INVALID_ARGUMENT, "Unknown GRPC error2"⟩
    ∧ ¬ List.IsInfix "Unknown RPC error".data "Unknown GRPC error2".data := by
  refine ⟨rfl, rfl, by decide, rfl, by decide⟩

/-- Witness for C2 at concrete completions (one failed Configure RPC). -/
theorem fanout_awaits_witness :
    (configureNodes [("node0", [])] [(⟨StatusCode.UNKNOWN, "x"⟩, [])]).result
      = Except.error ⟨StatusCode.INVALID_ARGUMENT, "Unknown GRPC error2"⟩
    ∧ (configureNodes [("node0", [])]
        [(⟨StatusCode.UNKNOWN, "x"⟩, [])]).leftover = 0
    ∧ (introducePeers [("node0", [])] [(statusOK, ())]).result
      = Except.ok () :=
  have h := fanout_awaits_and_collapses_errors [("node0", [])] initState
    [(⟨StatusCode.UNKNOWN, "x"⟩, [])] [(statusOK, ())]
    [("node0", statusOK, [])] rfl rfl rfl
  ⟨(h.1.2.2 ⟨(⟨StatusCode.UNKNOWN, "x"⟩, []),
      List.mem_singleton.mpr rfl, rfl⟩).1,
   h.1.1,
   (h.2.1.2.1 (by
      intro o ho
      obtain rfl := List.mem_singleton.mp ho
      rfl)).1⟩

/-! ## C9: RunTraffic toggles and restores the idle flags -/

theorem setNodeIdle_keys (k : String) (b : Bool) :
    ∀ m : List (String × Node),
      (setNodeIdle k b m).map Prod.fst = m.map Prod.fst := by
  intro m
  induction m with
  | nil => rfl
  | cons p rest ih =>
    obtain ⟨k', v⟩ := p
    by_cases hk : k = k'
    · subst hk; simp [setNodeIdle]
    · simp [setNodeIdle, hk, ih]

theorem mlookup_setNodeIdle_self (k : String) (b : Bool) :
    ∀ m : List (String × Node),
      mlookup k (setNodeIdle k b m)
        = (mlookup k m).map (fun v => ⟨v.registration, b⟩) := by
  intro m
  induction m with
  | nil => simp [setNodeIdle, mlookup]
  | cons p rest ih =>
    obtain ⟨k', v⟩ := p
    by_cases hk : k = k'
    · subst hk; simp [setNodeIdle, mlookup]
    · simp [setNodeIdle, mlookup, hk, ih]

theorem mlookup_setNodeIdle_other (k k' : String) (b : Bool)
    (h : k ≠ k') :
    ∀ m : List (String × Node),
      mlookup k (setNodeIdle k' b m) = mlookup k m := by
  intro m
  induction m with
  | nil => simp [setNodeIdle]
  | cons p rest ih =>
    obtain ⟨k0, v⟩ := p
    by_cases hk : k' = k0
    · subst hk; simp [setNodeIdle, mlookup, h]
    · by_cases hk2 : k = k0
      · subst hk2; simp [setNodeIdle, mlookup, hk]
      · simp [setNodeIdle, mlookup, hk, hk2, ih]

theorem foldl_setIdle_keys (targets : List String) (b : Bool) :
    ∀ m : List (String × Node),
      ((targets.foldl (fun mm t => setNodeIdle t b mm) m).map Prod.fst)
        = m.map Prod.fst := by
  induction targets with
  | nil => intro m; rfl
  | cons t rest ih =>
    intro m
    rw [List.foldl_cons, ih, setNodeIdle_keys]

theorem foldl_setIdle_frame (targets : List String) (b : Bool) :
    ∀ (m : List (String × Node)) (a : String), a ∉ targets →
      mlookup a (targets.foldl (fun mm t => setNodeIdle t b mm) m)
        = mlookup a m := by
  induction targets with
  | nil => intro m a _; rfl
  | cons t rest ih =>
    intro m a ha
    simp only [List.mem_cons, not_or] at ha
    rw [List.foldl_cons, ih _ _ ha.2, mlookup_setNodeIdle_other _ _ _ ha.1]

theorem foldl_setIdle_mem (targets : List String) (b : Bool) :
    ∀ (m : List (String × Node)) (a : String), a ∈ targets →
      a ∈ m.map Prod.fst →
      (mlookup a
          (targets.foldl (fun mm t => setNodeIdle t b mm) m)).map Node.idle
        = some b := by
  induction targets with
  | nil => intro m a ha _; simp at ha
  | cons t rest ih =>
    intro m a ha hkey
    rw [List.foldl_cons]
    by_cases hrest : a ∈ rest
    · exact ih _ _ hrest (by rw [setNodeIdle_keys]; exact hkey)
    · rcases List.mem_cons.mp ha with rfl | hmem
      · rw [foldl_setIdle_frame _ _ _ _ hrest, mlookup_setNodeIdle_self]
        obtain ⟨v, hv⟩ := mlookup_isSome a _ hkey
        simp [hv]
      · exact absurd hmem hrest

theorem foldl_setIdle_pairs (nsm : List (String × List String)) (b : Bool)
    (m : List (String × Node)) :
    nsm.foldl (fun mm p => setNodeIdle p.1 b mm) m
      = (nsm.map Prod.fst).foldl (fun mm t => setNodeIdle t b mm) m := by
  rw [List.foldl_map]

theorem drainStateFold_node_map
    (outs : List (String × Status × ServiceLogs)) :
    ∀ s : SequencerState,
      (outs.foldl
        (fun t o => { t with node_map := setNodeIdle o.1 true t.node_map })
        s).node_map
        = (outs.map Prod.fst).foldl (fun mm t => setNodeIdle t true mm)
            s.node_map := by
  induction outs with
  | nil => intro s; rfl
  | cons o rest ih =>
    intro s
    simp only [List.foldl_cons, List.map_cons]
    exact ih _

/-- C9: whether RunTraffic succeeds or fails, every targeted node's
`idle` flag is `false` after the dispatch loop (set before its RPC is
issued) and `true` again when RunTraffic returns (set on each
completion, regardless of the completion's status).  `outs` lists the
completions, one per targeted node, in any order. -/
theorem runTraffic_restores_idle (s : SequencerState)
    (nsm : List (String × List String))
    (outs : List (String × Status × ServiceLogs))
    (hperm : List.Perm (outs.map Prod.fst) (nsm.map Prod.fst))
    (hkeys : ∀ a ∈ nsm.map Prod.fst, a ∈ s.node_map.map Prod.fst) :
    (∀ a ∈ nsm.map Prod.fst,
      (mlookup a (runTrafficDispatch s nsm).node_map).map Node.idle
        = some false)
    ∧ (∀ a ∈ nsm.map Prod.fst,
      (mlookup a (runTraffic s nsm outs).1.node_map).map Node.idle
        = some true) := by
  have hlen : outs.length = nsm.length := by
    have h := hperm.length_eq
    simpa using h
  have hdisp : (runTrafficDispatch s nsm).node_map
      = (nsm.map Prod.fst).foldl (fun mm t => setNodeIdle t false mm)
          s.node_map := by
    show nsm.foldl (fun m p => setNodeIdle p.1 false m) s.node_map = _
    exact foldl_setIdle_pairs nsm false s.node_map
  constructor
  · intro a ha
    rw [hdisp]
    exact foldl_setIdle_mem _ _ _ _ ha (hkeys a ha)
  · intro a ha
    have hrtd := runTrafficDrain_eq outs nsm.length
      (runTrafficDispatch s nsm) [] statusOK hlen
    have h1 : (runTraffic s nsm outs).1
        = outs.foldl
            (fun t o =>
              { t with node_map := setNodeIdle o.1 true t.node_map })
            (runTrafficDispatch s nsm) := by
      simp [runTraffic, hrtd]
    rw [h1, drainStateFold_node_map]
    have hmem : a ∈ outs.map Prod.fst := hperm.mem_iff.mpr ha
    apply foldl_setIdle_mem _ _ _ _ hmem
    rw [hdisp, foldl_setIdle_keys]
    exact hkeys a ha

/-- Witness for C9: a targeted node whose RunTraffic RPC FAILED is idle
again when RunTraffic returns (and was busy during the fan-out). -/
theorem runTraffic_restores_idle_witness :
    (mlookup "node0"
        (runTrafficDispatch ⟨[("node0", ⟨⟨"h", 1⟩, true⟩)], [(⟨"h", 1⟩, 0)]⟩
          [("node0", ["A/0"])]).node_map).map Node.idle = some false
    ∧ (mlookup "node0"
        (runTraffic ⟨[("node0", ⟨⟨"h", 1⟩, true⟩)], [(⟨"h", 1⟩, 0)]⟩
          [("node0", ["A/0"])]
          [("node0", ⟨StatusCode.UNKNOWN, "boom"⟩, [])]).1.node_map).map
        Node.idle = some true :=
  have h := runTraffic_restores_idle
    ⟨[("node0", ⟨⟨"h", 1⟩, true⟩)], [(⟨"h", 1⟩, 0)]⟩
    [("node0", ["A/0"])]
    [("node0", ⟨StatusCode.UNKNOWN, "boom"⟩, [])]
    (List.Perm.refl _)
    (by intro a ha; simpa using ha)
  ⟨h.1 "node0" (by simp), h.2 "node0" (by simp)⟩

/-! ## C8: a Configure failure aborts the test before Introduce/RunTraffic -/

/-- C8: when the Configure fan-out observes at least one non-OK worker
response, `DoRunTest` returns Configure's INVALID_ARGUMENT
"Unknown GRPC error2" error having issued only the Configure phase — no
Introduce or RunTraffic RPC is issued — and the surrounding sequence
returns ABORTED carrying that error's message. -/
theorem configure_failure_aborts (s : SequencerState) (d : Description)
    (po : PhaseOuts) (nsm : List (String × List String))
    (hplace : placeServices (snapshotAliases s) d = Except.ok nsm)
    (hlen : po.cfg.length = nsm.length)
    (hbad : ∃ o ∈ po.cfg, o.1.isOk = false) :
    doRunTest s d po =
      (s, Except.error ⟨StatusCode.INVALID_ARGUMENT, "Unknown GRPC error2"⟩,
       [PhaseTag.configure])
    ∧ PhaseTag.introduce ∉ (doRunTest s d po).2.2
    ∧ PhaseTag.runTraffic ∉ (doRunTest s d po).2.2
    ∧ (doRunTestSequence false s [(d, po)] []).2.1
      = ⟨StatusCode.ABORTED, "Unknown GRPC error2"⟩ := by
  have hcfg := drainQueue_eq semMergeFrom po.cfg nsm.length [] statusOK hlen
  obtain ⟨b, hlast, hbok, hfold⟩ := statusFold_bad (po.cfg.map Prod.fst)
    (by
      obtain ⟨o, ho, h1⟩ := hbad
      exact ⟨o.1, List.mem_map.mpr ⟨o, ho, rfl⟩, h1⟩)
  have hst : po.cfg.foldl (fun t o => if o.1.isOk then t else o.1) statusOK
      = b := by
    rw [show po.cfg.foldl (fun t o => if o.1.isOk then t else o.1) statusOK
        = (po.cfg.map Prod.fst).foldl (fun t u => if u.isOk then t else u)
            statusOK from by rw [List.foldl_map]]
    exact hfold
  have hres : (configureNodes nsm po.cfg).result
      = Except.error ⟨StatusCode.INVALID_ARGUMENT, "Unknown GRPC error2"⟩ := by
    simp [configureNodes, hcfg, hst, hbok]
  have hdo : doRunTest s d po =
      (s, Except.error ⟨StatusCode.INVALID_ARGUMENT, "Unknown GRPC error2"⟩,
       [PhaseTag.configure]) := by
    simp [doRunTest, hplace, hres]
  refine ⟨hdo, ?_, ?_, ?_⟩
  · rw [hdo]
    simp
  · rw [hdo]
    simp
  · simp [doRunTestSequence, hdo]

/-- Witness for C8 at a concrete one-node test whose single Configure
RPC fails. -/
theorem configure_failure_aborts_witness :
    doRunTest ⟨[("node0", ⟨⟨"h", 1⟩, true⟩)], [(⟨"h", 1⟩, 0)]⟩
        ⟨[⟨"A", 1⟩], []⟩
        ⟨[(⟨StatusCode.UNKNOWN, "boom"⟩, [])], [], []⟩ =
      (⟨[("node0", ⟨⟨"h", 1⟩, true⟩)], [(⟨"h", 1⟩, 0)]⟩,
       Except.error ⟨StatusCode.INVALID_ARGUMENT, "Unknown GRPC error2"⟩,
       [PhaseTag.configure])
    ∧ (doRunTestSequence false
        ⟨[("node0", ⟨⟨"h", 1⟩, true⟩)], [(⟨"h", 1⟩, 0)]⟩
        [(⟨[⟨"A", 1⟩], []⟩,
          ⟨[(⟨StatusCode.UNKNOWN, "boom"⟩, [])], [], []⟩)] []).2.1
      = ⟨StatusCode.ABORTED, "Unknown GRPC error2"⟩ :=
  have h := configure_failure_aborts
    ⟨[("node0", ⟨⟨"h", 1⟩, true⟩)], [(⟨"h", 1⟩, 0)]⟩
    ⟨[⟨"A", 1⟩], []⟩
    ⟨[(⟨StatusCode.UNKNOWN, "boom"⟩, [])], [], []⟩
    [("node0", ["A/0"])]
    rfl rfl
    ⟨(⟨StatusCode.UNKNOWN, "boom"⟩, []), List.mem_singleton.mpr rfl, rfl⟩
  ⟨h.1, h.2.2.2⟩

/-! ## C7: the auto-placement overflow message -/

/-- The comma-separated rendering of a list of names, as produced by the
`absl::StrAppend(&failures, ", ")` / `absl::StrAppend(&failures, service)`
accumulation. -/
def commaSeparated : List String → String
  | [] => ""
  | [s] => s
  | s :: rest => s ++ ", " ++ commaSeparated rest

theorem append_ne_empty_left (a b : String) (h : a ≠ "") :
    a ++ b ≠ "" := by
  intro hc
  apply h
  have hd := congrArg String.data hc
  rw [String.data_append] at hd
  have := List.append_eq_nil.mp hd
  exact String.ext this.1

/-- Once `idle_nodes` is exhausted with a non-empty `failures` string,
the loop appends `", " ++ service` for each remaining service. -/
theorem autoPlace_failures_append (svcs : List String) :
    ∀ (nsm : List (String × List String)) (f : String), f ≠ "" →
      (autoPlace svcs [] nsm f).1
        = svcs.foldl (fun acc x => acc ++ ", " ++ x) f := by
  induction svcs with
  | nil => intro nsm f _; rfl
  | cons s rest ih =>
    intro nsm f hf
    simp only [autoPlace, if_neg hf, List.foldl_cons]
    exact ih nsm _ (append_ne_empty_left _ _ (append_ne_empty_left _ _ hf))

theorem commaSeparated_cons_append (s r : String) (rr : List String) :
    commaSeparated ((s ++ ", " ++ r) :: rr)
      = s ++ ", " ++ commaSeparated (r :: rr) := by
  cases rr with
  | nil => rfl
  | cons r2 rr2 =>
    show (s ++ ", " ++ r) ++ ", " ++ commaSeparated (r2 :: rr2)
      = s ++ ", " ++ (r ++ ", " ++ commaSeparated (r2 :: rr2))
    simp [String.append_assoc]

theorem foldl_comma_eq_commaSeparated (rest : List String) :
    ∀ s : String,
      rest.foldl (fun acc x => acc ++ ", " ++ x) s
        = commaSeparated (s :: rest) := by
  induction rest with
  | nil => intro s; rfl
  | cons r rr ih =>
    intro s
    rw [List.foldl_cons, ih (s ++ ", " ++ r), commaSeparated_cons_append]
    simp [commaSeparated]

/-- The `failures` string computed by the auto-placement loop is exactly
the comma-separated list of the services beyond the first
`idle_nodes.length` (in the sorted order of `unplaced_services`). -/
theorem autoPlace_failures (svcs : List String) :
    ∀ (idle : List String) (nsm : List (String × List String)),
      (∀ x ∈ svcs, x ≠ "") →
      (autoPlace svcs idle nsm "").1
        = commaSeparated (svcs.drop idle.length) := by
  induction svcs with
  | nil => intro idle nsm _; simp [autoPlace, commaSeparated]
  | cons s rest ih =>
    intro idle nsm hne
    cases idle with
    | nil =>
      have hs : s ≠ "" := hne s (List.mem_cons_self _ _)
      have h0 : autoPlace (s :: rest) [] nsm "" = autoPlace rest [] nsm s := by
        simp [autoPlace]
      rw [List.length_nil, List.drop_zero, h0,
        autoPlace_failures_append rest nsm s hs,
        foldl_comma_eq_commaSeparated]
    | cons a irest =>
      simp only [autoPlace, List.length_cons, List.drop_succ_cons]
      exact ih irest (nsmAdd a s nsm)
        (fun x hx => hne x (List.mem_cons_of_mem _ hx))

theorem commaSeparated_ne_empty (l : List String)
    (hne : ∀ x ∈ l, x ≠ "") (h : l ≠ []) : commaSeparated l ≠ "" := by
  cases l with
  | nil => exact absurd rfl h
  | cons s rest =>
    cases rest with
    | nil => exact hne s (List.mem_cons_self _ _)
    | cons r rr =>
      show s ++ ", " ++ commaSeparated (r :: rr) ≠ ""
      exact append_ne_empty_left _ _
        (append_ne_empty_left _ _ (hne s (List.mem_cons_self _ _)))

theorem consumeServices_subset (al : String) (svcs : List String) :
    ∀ (u : List String) (nsm : List (String × List String))
      (out : List String × List (String × List String)),
      consumeServices al svcs u nsm = Except.ok out → out.1 ⊆ u := by
  induction svcs with
  | nil =>
    intro u nsm out h
    simp only [consumeServices, Except.ok.injEq] at h
    subst h
    exact fun x hx => hx
  | cons s rest ih =>
    intro u nsm out h
    by_cases hmem : s ∈ u
    · simp only [consumeServices, if_pos hmem] at h
      exact fun x hx => List.erase_subset _ _ (ih _ _ _ h hx)
    · simp [consumeServices, hmem] at h

theorem consumeBundles_subset (bundles : List (String × List String)) :
    ∀ (u : List String) (nsm : List (String × List String))
      (idle : List String)
      (out : List String × List (String × List String) × List String),
      consumeBundles bundles u nsm idle = Except.ok out → out.1 ⊆ u := by
  induction bundles with
  | nil =>
    intro u nsm idle out h
    simp only [consumeBundles, Except.ok.injEq] at h
    subst h
    exact fun x hx => hx
  | cons b rest ih =>
    intro u nsm idle out h
    obtain ⟨al, svcs⟩ := b
    simp only [consumeBundles] at h
    cases hcs : consumeServices al svcs u nsm with
    | error e =>
      rw [hcs] at h
      have h2 : (Except.error e :
          Except Status
            (List String × List (String × List String) × List String))
          = Except.ok out := h
      simp at h2
    | ok pr =>
      obtain ⟨u2, n2⟩ := pr
      rw [hcs] at h
      have h2 : (if al ∈ idle then
            consumeBundles rest u2 n2 (idle.erase al)
          else Except.error ⟨StatusCode.NOT_FOUND,
            "Node " ++ al ++ " was not found or not idle."⟩)
          = Except.ok out := h
      by_cases hidle : al ∈ idle
      · rw [if_pos hidle] at h2
        exact fun x hx =>
          consumeServices_subset al svcs u nsm (u2, n2) hcs
            (ih _ _ _ _ h2 hx)
      · rw [if_neg hidle] at h2
        simp at h2

/-- C7: when the unplaced services outnumber the available nodes during
auto-placement, `DoRunTest`'s placement fails with NOT_FOUND whose
message lists exactly the still-unplaced service names, comma-separated,
in the sorted order of the `unplaced_services` set. -/
theorem autoplace_overflow_not_found (aliases : List String)
    (d : Description) (u1 idle1 : List String)
    (nsm1 : List (String × List String))
    (hsvc : d.services ≠ [])
    (hbundles : consumeBundles d.node_service_bundles
        (expandServices d.services) [] aliases
      = Except.ok (u1, nsm1, idle1))
    (hcount : idle1.length < u1.length) :
    placeServices aliases d
      = Except.error ⟨StatusCode.NOT_FOUND,
          "No idle node for placement of services: "
            ++ commaSeparated (u1.drop idle1.length)⟩ := by
  have hsub : u1 ⊆ expandServices d.services :=
    consumeBundles_subset d.node_service_bundles
      (expandServices d.services) [] aliases (u1, nsm1, idle1) hbundles
  have hne : ∀ x ∈ u1, x ≠ "" :=
    fun x hx => expandServices_ne_empty d.services x (hsub hx)
  have hfail : (autoPlace u1 idle1 nsm1 "").1
      = commaSeparated (u1.drop idle1.length) :=
    autoPlace_failures u1 idle1 nsm1 hne
  have hdropne : u1.drop idle1.length ≠ [] := by
    intro hc
    have := List.drop_eq_nil_iff.mp hc
    omega
  have hnempty : commaSeparated (u1.drop idle1.length) ≠ "" :=
    commaSeparated_ne_empty _
      (fun x hx => hne x (List.mem_of_mem_drop hx)) hdropne
  rcases hap : autoPlace u1 idle1 nsm1 "" with ⟨f, nsm2, idle2⟩
  have hf : f = commaSeparated (u1.drop idle1.length) := by
    rw [← hfail, hap]
  subst hf
  simp [placeServices, hsvc, hbundles, hap, hnempty]

/-- Witness for C7: two registered nodes, `services = [{A, 3}]` — the
message lists exactly "A/2". -/
theorem autoplace_overflow_not_found_witness :
    placeServices ["node0", "node1"] ⟨[⟨"A", 3⟩], []⟩
      = Except.error ⟨StatusCode.NOT_FOUND,
          "No idle node for placement of services: A/2"⟩ :=
  autoplace_overflow_not_found ["node0", "node1"] ⟨[⟨"A", 3⟩], []⟩
    ["A/0", "A/1", "A/2"] ["node0", "node1"] []
    (by decide) (by rfl) (by decide)

/-! ## C6: the placement partitions the requested services -/

/-- All service instances placed so far, across all aliases. -/
def nsmFlat (m : List (String × List String)) : List String :=
  (m.map Prod.snd).flatten

theorem mem_nsmFlat (x : String) (m : List (String × List String)) :
    x ∈ nsmFlat m ↔ ∃ p ∈ m, x ∈ p.2 := by
  simp only [nsmFlat, List.mem_flatten, List.mem_map]
  constructor
  · rintro ⟨l, ⟨p, hp, rfl⟩, hx⟩
    exact ⟨p, hp, hx⟩
  · rintro ⟨p, hp, hx⟩
    exact ⟨p.2, ⟨p, hp, rfl⟩, hx⟩

theorem nsmFlat_cons (p : String × List String)
    (m : List (String × List String)) :
    nsmFlat (p :: m) = p.2 ++ nsmFlat m := rfl

theorem nsmAdd_keys_mem (al s : String) :
    ∀ (m : List (String × List String)) (b : String),
      b ∈ (nsmAdd al s m).map Prod.fst ↔
        b = al ∨ b ∈ m.map Prod.fst := by
  intro m
  induction m with
  | nil => simp [nsmAdd]
  | cons p rest ih =>
    obtain ⟨k, v⟩ := p
    intro b
    by_cases h1 : strLt al k = true
    · simp only [nsmAdd, if_pos h1, List.map_cons, List.mem_cons]
    · by_cases h2 : al = k
      · subst h2
        have he : nsmAdd al s ((al, v) :: rest)
            = (al, sinsert s v) :: rest := by
          simp [nsmAdd, h1]
        rw [he]
        simp only [List.map_cons, List.mem_cons]
        tauto
      · simp only [nsmAdd, if_neg h1, if_neg h2, List.map_cons,
          List.mem_cons, ih]
        tauto

theorem nsmAdd_keys_sorted (al s : String) :
    ∀ m : List (String × List String),
      (m.map Prod.fst).Sorted sLtR →
      ((nsmAdd al s m).map Prod.fst).Sorted sLtR := by
  intro m
  induction m with
  | nil => intro _; simp [nsmAdd, sLtR]
  | cons p rest ih =>
    obtain ⟨k, v⟩ := p
    intro h
    simp only [List.map_cons] at h
    rw [List.sorted_cons] at h
    obtain ⟨hk, hrest⟩ := h
    by_cases h1 : strLt al k = true
    · simp only [nsmAdd, if_pos h1, List.map_cons]
      rw [List.sorted_cons]
      constructor
      · intro b hb
        rcases List.mem_cons.mp hb with rfl | hb
        · exact h1
        · exact strLt_trans h1 (hk b hb)
      · rw [List.sorted_cons]
        exact ⟨hk, hrest⟩
    · by_cases h2 : al = k
      · subst h2
        have he : nsmAdd al s ((al, v) :: rest)
            = (al, sinsert s v) :: rest := by
          simp [nsmAdd, h1]
        rw [he, List.map_cons, List.sorted_cons]
        exact ⟨hk, hrest⟩
      · simp only [nsmAdd, if_neg h1, if_neg h2, List.map_cons]
        rw [List.sorted_cons]
        refine ⟨?_, ih hrest⟩
        intro b hb
        rcases (nsmAdd_keys_mem al s rest b).mp hb with rfl | hb
        · rcases strLt_cases b k with hlt | heq | hgt
          · exact absurd hlt h1
          · exact absurd heq h2
          · exact hgt
        · exact hk b hb

theorem nsmAdd_flat_perm (al s : String) :
    ∀ m : List (String × List String), s ∉ nsmFlat m →
      List.Perm (nsmFlat (nsmAdd al s m)) (s :: nsmFlat m) := by
  intro m
  induction m with
  | nil => intro _; simp [nsmAdd, nsmFlat]
  | cons p rest ih =>
    obtain ⟨k, v⟩ := p
    intro hs
    rw [nsmFlat_cons] at hs
    simp only [List.mem_append, not_or] at hs
    by_cases h1 : strLt al k = true
    · simp only [nsmAdd, if_pos h1, nsmFlat_cons]
      exact List.Perm.refl _
    · by_cases h2 : al = k
      · subst h2
        have he : nsmAdd al s ((al, v) :: rest)
            = (al, sinsert s v) :: rest := by
          simp [nsmAdd, h1]
        rw [he, nsmFlat_cons]
        exact (sinsert_perm_of_not_mem s v hs.1).append_right _
      · simp only [nsmAdd, if_neg h1, if_neg h2, nsmFlat_cons]
        exact List.Perm.trans
          (List.Perm.append_left v (ih hs.2)) List.perm_middle

theorem nsmTouch_flat (al : String) :
    ∀ m : List (String × List String), nsmFlat (nsmTouch al m)
      = nsmFlat m := by
  intro m
  induction m with
  | nil => rfl
  | cons p rest ih =>
    obtain ⟨k, v⟩ := p
    by_cases h1 : strLt al k = true
    · simp [nsmTouch, h1, nsmFlat_cons]
    · by_cases h2 : al = k
      · subst h2
        have he : nsmTouch al ((al, v) :: rest) = (al, v) :: rest := by
          simp [nsmTouch, h1]
        rw [he]
      · simp [nsmTouch, h1, h2, nsmFlat_cons, ih]

theorem nsmTouch_keys_mem (al : String) :
    ∀ (m : List (String × List String)) (b : String),
      b ∈ (nsmTouch al m).map Prod.fst ↔
        b = al ∨ b ∈ m.map Prod.fst := by
  intro m
  induction m with
  | nil => simp [nsmTouch]
  | cons p rest ih =>
    obtain ⟨k, v⟩ := p
    intro b
    by_cases h1 : strLt al k = true
    · simp only [nsmTouch, if_pos h1, List.map_cons, List.mem_cons]
    · by_cases h2 : al = k
      · subst h2
        have he : nsmTouch al ((al, v) :: rest) = (al, v) :: rest := by
          simp [nsmTouch, h1]
        rw [he]
        simp only [List.map_cons, List.mem_cons]
        tauto
      · simp only [nsmTouch, if_neg h1, if_neg h2, List.map_cons,
          List.mem_cons, ih]
        tauto

theorem nsmTouch_keys_sorted (al : String) :
    ∀ m : List (String × List String),
      (m.map Prod.fst).Sorted sLtR →
      ((nsmTouch al m).map Prod.fst).Sorted sLtR := by
  intro m
  induction m with
  | nil => intro _; simp [nsmTouch, sLtR]
  | cons p rest ih =>
    obtain ⟨k, v⟩ := p
    intro h
    simp only [List.map_cons] at h
    rw [List.sorted_cons] at h
    obtain ⟨hk, hrest⟩ := h
    by_cases h1 : strLt al k = true
    · simp only [nsmTouch, if_pos h1, List.map_cons]
      rw [List.sorted_cons]
      constructor
      · intro b hb
        rcases List.mem_cons.mp hb with rfl | hb
        · exact h1
        · exact strLt_trans h1 (hk b hb)
      · rw [List.sorted_cons]
        exact ⟨hk, hrest⟩
    · by_cases h2 : al = k
      · subst h2
        have he : nsmTouch al ((al, v) :: rest) = (al, v) :: rest := by
          simp [nsmTouch, h1]
        rw [he, List.map_cons, List.sorted_cons]
        exact ⟨hk, hrest⟩
      · simp only [nsmTouch, if_neg h1, if_neg h2, List.map_cons]
        rw [List.sorted_cons]
        refine ⟨?_, ih hrest⟩
        intro b hb
        rcases (nsmTouch_keys_mem al rest b).mp hb with rfl | hb
        · rcases strLt_cases b k with hlt | heq | hgt
          · exact absurd hlt h1
          · exact absurd heq h2
          · exact hgt
        · exact hk b hb

theorem touchFold_flat (idle : List String) :
    ∀ nsm : List (String × List String),
      nsmFlat (idle.foldl (fun m a => nsmTouch a m) nsm) = nsmFlat nsm := by
  induction idle with
  | nil => intro nsm; rfl
  | cons a rest ih =>
    intro nsm
    rw [List.foldl_cons, ih, nsmTouch_flat]

theorem touchFold_keys_mem (idle : List String) :
    ∀ (nsm : List (String × List String)) (b : String),
      b ∈ ((idle.foldl (fun m a => nsmTouch a m) nsm).map Prod.fst) ↔
        b ∈ idle ∨ b ∈ nsm.map Prod.fst := by
  induction idle with
  | nil => simp
  | cons a rest ih =>
    intro nsm b
    rw [List.foldl_cons, ih, nsmTouch_keys_mem]
    constructor
    · rintro (h | h)
      · exact Or.inl (List.mem_cons_of_mem _ h)
      · rcases h with rfl | h
        · exact Or.inl (List.mem_cons_self _ _)
        · exact Or.inr h
    · rintro (h | h)
      · rcases List.mem_cons.mp h with rfl | h
        · exact Or.inr (Or.inl rfl)
        · exact Or.inl h
      · exact Or.inr (Or.inr h)

theorem touchFold_keys_sorted (idle : List String) :
    ∀ nsm : List (String × List String),
      (nsm.map Prod.fst).Sorted sLtR →
      ((idle.foldl (fun m a => nsmTouch a m) nsm).map Prod.fst).Sorted
        sLtR := by
  induction idle with
  | nil => intro nsm h; exact h
  | cons a rest ih =>
    intro nsm h
    rw [List.foldl_cons]
    exact ih _ (nsmTouch_keys_sorted a nsm h)

/-- Invariant of the bundle-service consumption loop: services move from
`unplaced_services` into the map one at a time, so the multiset
`placed ++ unplaced` is preserved; map keys only grow, a non-empty
bundle records its alias, and key-sortedness is preserved. -/
theorem consumeServices_spec (al : String) (svcs : List String) :
    ∀ (u : List String) (nsm : List (String × List String))
      (u' : List String) (nsm' : List (String × List String)),
      consumeServices al svcs u nsm = Except.ok (u', nsm') →
      (nsmFlat nsm ++ u).Nodup →
      List.Perm (nsmFlat nsm' ++ u') (nsmFlat nsm ++ u)
      ∧ (∀ b ∈ nsm.map Prod.fst, b ∈ nsm'.map Prod.fst)
      ∧ (svcs ≠ [] → al ∈ nsm'.map Prod.fst)
      ∧ ((nsm.map Prod.fst).Sorted sLtR →
          (nsm'.map Prod.fst).Sorted sLtR) := by
  induction svcs with
  | nil =>
    intro u nsm u' nsm' h _
    simp only [consumeServices, Except.ok.injEq, Prod.mk.injEq] at h
    obtain ⟨rfl, rfl⟩ := h
    exact ⟨List.Perm.refl _, fun b hb => hb, fun hne => absurd rfl hne,
      fun hs => hs⟩
  | cons s rest ih =>
    intro u nsm u' nsm' h hnodup
    by_cases hmem : s ∈ u
    · simp only [consumeServices, if_pos hmem] at h
      have hsnot : s ∉ nsmFlat nsm := by
        intro hc
        have hd := (List.nodup_append.mp hnodup).2.2
        exact hd hc hmem
      have hperm1 : List.Perm (nsmFlat (nsmAdd al s nsm)) (s :: nsmFlat nsm) :=
        nsmAdd_flat_perm al s nsm hsnot
      have hmid : List.Perm (nsmFlat (nsmAdd al s nsm) ++ u.erase s)
          (nsmFlat nsm ++ u) := by
        refine List.Perm.trans (hperm1.append_right _) ?_
        refine List.Perm.trans List.perm_middle.symm ?_
        exact List.Perm.append_left _ (List.perm_cons_erase hmem).symm
      have hnodup2 : (nsmFlat (nsmAdd al s nsm) ++ u.erase s).Nodup :=
        hmid.symm.nodup hnodup
      obtain ⟨hp, hkeys, _, hsort⟩ := ih _ _ _ _ h hnodup2
      refine ⟨List.Perm.trans hp hmid, ?_, ?_, ?_⟩
      · intro b hb
        exact hkeys b ((nsmAdd_keys_mem al s nsm b).mpr (Or.inr hb))
      · intro _
        exact hkeys al ((nsmAdd_keys_mem al s nsm al).mpr (Or.inl rfl))
      · intro hs
        exact hsort (nsmAdd_keys_sorted al s nsm hs)
    · simp [consumeServices, hmem] at h

/-- Invariant of the whole `node_service_bundles` consumption: the
placed-plus-unplaced multiset is preserved; keys only grow; every
non-empty bundle's alias becomes a key; key-sortedness is preserved; and
every alias of the idle set either survives, became a key, or was named
by a bundle with no services. -/
theorem consumeBundles_spec (bundles : List (String × List String)) :
    ∀ (u : List String) (nsm : List (String × List String))
      (idle u' : List String) (nsm' : List (String × List String))
      (idle' : List String),
      consumeBundles bundles u nsm idle = Except.ok (u', nsm', idle') →
      (nsmFlat nsm ++ u).Nodup →
      List.Perm (nsmFlat nsm' ++ u') (nsmFlat nsm ++ u)
      ∧ (∀ b ∈ nsm.map Prod.fst, b ∈ nsm'.map Prod.fst)
      ∧ (∀ al svcs, (al, svcs) ∈ bundles → svcs ≠ [] →
          al ∈ nsm'.map Prod.fst)
      ∧ ((nsm.map Prod.fst).Sorted sLtR →
          (nsm'.map Prod.fst).Sorted sLtR)
      ∧ (∀ a ∈ idle, a ∈ idle' ∨ a ∈ nsm'.map Prod.fst ∨
          (a, ([] : List String)) ∈ bundles) := by
  induction bundles with
  | nil =>
    intro u nsm idle u' nsm' idle' h _
    simp only [consumeBundles, Except.ok.injEq, Prod.mk.injEq] at h
    obtain ⟨rfl, rfl, rfl⟩ := h
    exact ⟨List.Perm.refl _, fun b hb => hb, fun al svcs hmem => by simp at hmem,
      fun hs => hs, fun a ha => Or.inl ha⟩
  | cons b0 rest ih =>
    intro u nsm idle u' nsm' idle' h hnodup
    obtain ⟨al, svcs⟩ := b0
    simp only [consumeBundles] at h
    cases hcs : consumeServices al svcs u nsm with
    | error e =>
      rw [hcs] at h
      have h2 : (Except.error e :
          Except Status
            (List String × List (String × List String) × List String))
          = Except.ok (u', nsm', idle') := h
      simp at h2
    | ok pr =>
      obtain ⟨u2, n2⟩ := pr
      rw [hcs] at h
      have h2 : (if al ∈ idle then
            consumeBundles rest u2 n2 (idle.erase al)
          else Except.error ⟨StatusCode.NOT_FOUND,
            "Node " ++ al ++ " was not found or not idle."⟩)
          = Except.ok (u', nsm', idle') := h
      by_cases hidle : al ∈ idle
      · rw [if_pos hidle] at h2
        obtain ⟨hp1, hkeys1, hadded1, hsort1⟩ :=
          consumeServices_spec al svcs u nsm u2 n2 hcs hnodup
        have hnodup2 : (nsmFlat n2 ++ u2).Nodup := hp1.symm.nodup hnodup
        obtain ⟨hp2, hkeys2, hbund2, hsort2, hcov2⟩ :=
          ih _ _ _ _ _ _ h2 hnodup2
        refine ⟨List.Perm.trans hp2 hp1, ?_, ?_, ?_, ?_⟩
        · intro b hb
          exact hkeys2 b (hkeys1 b hb)
        · intro al2 svcs2 hmem hne
          rcases List.mem_cons.mp hmem with heq | hmem2
          · obtain ⟨rfl, rfl⟩ := Prod.mk.injEq .. ▸ heq
            exact hkeys2 al2 (hadded1 hne)
          · exact hbund2 al2 svcs2 hmem2 hne
        · intro hs
          exact hsort2 (hsort1 hs)
        · intro a ha
          by_cases hal : a = al
          · subst hal
            cases hsv : svcs with
            | nil => exact Or.inr (Or.inr (List.mem_cons_self _ _))
            | cons sv svrest =>
              refine Or.inr (Or.inl ?_)
              exact hkeys2 a (hadded1 (by simp [hsv]))
          · have ha2 : a ∈ idle.erase al :=
              (List.mem_erase_of_ne hal).mpr ha
            rcases hcov2 a ha2 with h | h | h
            · exact Or.inl h
            · exact Or.inr (Or.inl h)
            · exact Or.inr (Or.inr (List.mem_cons_of_mem _ h))
      · rw [if_neg hidle] at h2
        simp at h2

/-- Invariant of the auto-placement loop on the success path (empty
`failures`): every remaining service lands in the map, keys only grow,
sortedness is preserved, and every idle node either survives or became a
key. -/
theorem autoPlace_spec (svcs : List String) :
    ∀ (idle : List String) (nsm nsm' : List (String × List String))
      (idle' : List String),
      autoPlace svcs idle nsm "" = ("", nsm', idle') →
      (∀ x ∈ svcs, x ≠ "") →
      (nsmFlat nsm ++ svcs).Nodup →
      List.Perm (nsmFlat nsm') (nsmFlat nsm ++ svcs)
      ∧ (∀ b ∈ nsm.map Prod.fst, b ∈ nsm'.map Prod.fst)
      ∧ ((nsm.map Prod.fst).Sorted sLtR →
          (nsm'.map Prod.fst).Sorted sLtR)
      ∧ (∀ a ∈ idle, a ∈ idle' ∨ a ∈ nsm'.map Prod.fst) := by
  induction svcs with
  | nil =>
    intro idle nsm nsm' idle' h _ _
    simp only [autoPlace, Prod.mk.injEq] at h
    obtain ⟨-, rfl, rfl⟩ := h
    exact ⟨by simp, fun b hb => hb, fun hs => hs, fun a ha => Or.inl ha⟩
  | cons s rest ih =>
    intro idle nsm nsm' idle' h hne hnodup
    cases idle with
    | nil =>
      have hs : s ≠ "" := hne s (List.mem_cons_self _ _)
      have h0 : autoPlace (s :: rest) [] nsm ""
          = autoPlace rest [] nsm s := by
        simp [autoPlace]
      rw [h0] at h
      have hzero : (autoPlace rest [] nsm s).1 = "" := by rw [h]
      rw [autoPlace_failures_append rest nsm s hs,
        foldl_comma_eq_commaSeparated] at hzero
      exact absurd hzero (commaSeparated_ne_empty _ hne (by simp))
    | cons a irest =>
      simp only [autoPlace] at h
      have hsnot : s ∉ nsmFlat nsm := by
        have hd := (List.nodup_append.mp hnodup).2.2
        exact fun hc => hd hc (List.mem_cons_self _ _)
      have hperm1 := nsmAdd_flat_perm a s nsm hsnot
      have hmid : List.Perm (nsmFlat (nsmAdd a s nsm) ++ rest)
          (nsmFlat nsm ++ (s :: rest)) :=
        List.Perm.trans (hperm1.append_right _) List.perm_middle.symm
      have hnodup2 : (nsmFlat (nsmAdd a s nsm) ++ rest).Nodup :=
        hmid.symm.nodup hnodup
      obtain ⟨hp, hkeys, hsort, hcov⟩ := ih irest (nsmAdd a s nsm) nsm'
        idle' h (fun x hx => hne x (List.mem_cons_of_mem _ hx)) hnodup2
      refine ⟨List.Perm.trans hp hmid, ?_, ?_, ?_⟩
      · intro b hb
        exact hkeys b ((nsmAdd_keys_mem a s nsm b).mpr (Or.inr hb))
      · intro hsod
        exact hsort (nsmAdd_keys_sorted a s nsm hsod)
      · intro x hx
        rcases List.mem_cons.mp hx with rfl | hx2
        · exact Or.inr
            (hkeys x ((nsmAdd_keys_mem x s nsm x).mpr (Or.inl rfl)))
        · exact hcov x hx2

/-- When all placed services are pairwise distinct, no service instance
appears under two different entries of the placement. -/
theorem flat_nodup_entries (m : List (String × List String))
    (hf : (nsmFlat m).Nodup) :
    ∀ p ∈ m, ∀ q ∈ m, ∀ s : String, s ∈ p.2 → s ∈ q.2 → p = q := by
  induction m with
  | nil =>
    intro p hp
    simp at hp
  | cons e rest ih =>
    intro p hp q hq s hsp hsq
    rw [nsmFlat_cons] at hf
    obtain ⟨he1, he2, hdisj⟩ := List.nodup_append.mp hf
    rcases List.mem_cons.mp hp with rfl | hp2 <;>
      rcases List.mem_cons.mp hq with rfl | hq2
    · rfl
    · exact absurd ((mem_nsmFlat s rest).mpr ⟨q, hq2, hsq⟩) (hdisj hsp)
    · exact absurd ((mem_nsmFlat s rest).mpr ⟨p, hp2, hsp⟩) (hdisj hsq)
    · exact ih he2 p hp2 q hq2 s hsp hsq

/-- C6 (amended): on every successful placement, the union of
`placement[alias]` over all aliases is exactly the requested
service-instance set `{ "<server_type>/<i>" | 0 ≤ i < count }`, no
service instance appears under two aliases, every alias named in a
bundle WITH AT LEAST ONE SERVICE appears as a key, and every known alias
either appears as a key (possibly with an empty set) or was named by a
bundle with an empty service list. -/
theorem placement_partitions_services (aliases : List String)
    (d : Description) (nsm : List (String × List String))
    (hok : placeServices aliases d = Except.ok nsm) :
    (∀ svc : String, (∃ p ∈ nsm, svc ∈ p.2) ↔
      (∃ sn ∈ d.services, ∃ i, i < sn.count ∧
        svc = sn.server_type ++ "/" ++ toString i))
    ∧ (nsm.map Prod.fst).Nodup
    ∧ (∀ p ∈ nsm, ∀ q ∈ nsm, ∀ svc : String,
        svc ∈ p.2 → svc ∈ q.2 → p = q)
    ∧ (∀ al svcs, (al, svcs) ∈ d.node_service_bundles → svcs ≠ [] →
        al ∈ nsm.map Prod.fst)
    ∧ (∀ a ∈ aliases, a ∈ nsm.map Prod.fst ∨
        (a, ([] : List String)) ∈ d.node_service_bundles) := by
  by_cases hsvc : d.services = []
  · simp [placeServices, hsvc] at hok
  cases hcb : consumeBundles d.node_service_bundles
      (expandServices d.services) [] aliases with
  | error e => simp [placeServices, hsvc, hcb] at hok
  | ok tr =>
    obtain ⟨u1, nsm1, idle1⟩ := tr
    rcases hap : autoPlace u1 idle1 nsm1 "" with ⟨f, nsm2, idle2⟩
    by_cases hfe : f = ""
    · subst hfe
      have hnsm : nsm = idle2.foldl (fun m a => nsmTouch a m) nsm2 := by
        simp [placeServices, hsvc, hcb, hap] at hok
        exact hok.symm
      have hexpnodup : (expandServices d.services).Nodup :=
        sorted_sLtR_nodup (expandServices_sorted d.services)
      have hinit : (nsmFlat ([] : List (String × List String))
          ++ expandServices d.services).Nodup := by
        simpa [nsmFlat] using hexpnodup
      obtain ⟨hp1, hkeys1, hbund1, hsort1, hcov1⟩ :=
        consumeBundles_spec d.node_service_bundles
          (expandServices d.services) [] aliases u1 nsm1 idle1 hcb hinit
      have hexp : List.Perm (nsmFlat nsm1 ++ u1)
          (expandServices d.services) := by
        simpa [nsmFlat] using hp1
      have hnodup1 : (nsmFlat nsm1 ++ u1).Nodup :=
        hexp.symm.nodup hexpnodup
      have hneu : ∀ x ∈ u1, x ≠ "" := by
        intro x hx
        exact expandServices_ne_empty d.services x
          (hexp.mem_iff.mp (List.mem_append_right _ hx))
      obtain ⟨hp2, hkeys2, hsort2, hcov2⟩ :=
        autoPlace_spec u1 idle1 nsm1 nsm2 idle2 hap hneu hnodup1
      have hflat : nsmFlat nsm = nsmFlat nsm2 := by
        rw [hnsm, touchFold_flat]
      have hfinal : List.Perm (nsmFlat nsm) (expandServices d.services) := by
        rw [hflat]
        exact List.Perm.trans hp2 hexp
      refine ⟨?_, ?_, ?_, ?_, ?_⟩
      · intro svc
        rw [← mem_nsmFlat, hfinal.mem_iff, mem_expandServices]
      · rw [hnsm]
        apply sorted_sLtR_nodup
        apply touchFold_keys_sorted
        apply hsort2
        apply hsort1
        simp
      · exact flat_nodup_entries nsm (hfinal.symm.nodup hexpnodup)
      · intro al svcs hmem hne
        rw [hnsm, touchFold_keys_mem]
        exact Or.inr (hkeys2 al (hbund1 al svcs hmem hne))
      · intro a ha
        rcases hcov1 a ha with h | h | h
        · rcases hcov2 a h with h2 | h2
          · exact Or.inl (by rw [hnsm, touchFold_keys_mem]; exact Or.inl h2)
          · exact Or.inl (by rw [hnsm, touchFold_keys_mem]; exact Or.inr h2)
        · exact Or.inl
            (by rw [hnsm, touchFold_keys_mem]; exact Or.inr (hkeys2 a h))
        · exact Or.inr h
    · simp [placeServices, hsvc, hcb, hap, hfe] at hok

/-- C6 counterexample to the claim as stated: an alias named in a
node_service_bundle with an EMPTY service list is consumed from the
candidate pool but does NOT appear as a key of the successful
placement. -/
theorem placement_empty_bundle_alias_missing :
    placeServices ["node0", "node1"] ⟨[⟨"A", 1⟩], [("node0", [])]⟩
      = Except.ok [("node1", ["A/0"])]
    ∧ ("node0", ([] : List String)) ∈
        (⟨[⟨"A", 1⟩], [("node0", [])]⟩ : Description).node_service_bundles
    ∧ "node0" ∉ ([("node1", ["A/0"])] :
        List (String × List String)).map Prod.fst := by
  refine ⟨rfl, by simp, by simp⟩

/-- Witness for C6: three nodes, `services = [{A, 2}]`, no bundles — the
placement is `A/0 → node0`, `A/1 → node1`, `node2 → {}`. -/
theorem placement_partitions_services_witness :
    ((∃ p ∈ ([("node0", ["A/0"]), ("node1", ["A/1"]), ("node2", [])] :
        List (String × List String)), "A/0" ∈ p.2) ↔
      (∃ sn ∈ ([⟨"A", 2⟩] : List ServiceSpec), ∃ i, i < sn.count ∧
        "A/0" = sn.server_type ++ "/" ++ toString i))
    ∧ (([("node0", ["A/0"]), ("node1", ["A/1"]), ("node2", [])] :
        List (String × List String)).map Prod.fst).Nodup :=
  have h := placement_partitions_services ["node0", "node1", "node2"]
    ⟨[⟨"A", 2⟩], []⟩
    [("node0", ["A/0"]), ("node1", ["A/1"]), ("node2", [])] rfl
  ⟨h.1 "A/0", h.2.1⟩

end Distbench
